import Mathlib

/-!
# Verification of the teacher-log-support rate-limiting subsystem

Shallow embedding of the repository's rate-limiting code:

* `src/unnamed/part_010` — `RateLimitStore`, `MemoryEfficientStore`
  (in-memory JS `Map`-backed stores with lazy expiry and capacity eviction);
* `src/lib/middleware/rate-liming` helpers — `checkRateLimit`, `BurstProtection`;
* `src/lib/utils/ip-utils.ts` — `getClientIP`, `validateIP`, `normalizeIP`,
  `compressIPv6`;
* `src/lib/utils/rate-limit-config.ts` — `RATE_LIMIT_CONFIGS`,
  `matchEndpointPattern`, `getMethodSpecificConfig`, `getEnvironmentConfig`,
  `getEndpointConfig`, `validateRateLimitConfig`, `overrideRateLimitConfig`.

Conventions of the embedding:

* A JS `Map` (and a plain object used as a dictionary) is an association list
  `List (String × β)` kept in insertion order: `set` of an existing key updates
  the entry in place, `set` of a new key appends at the end, iteration order is
  list order — exactly the observable semantics of JS `Map` / string-keyed
  object literals.
* Timestamps (`Date.now()`) are passed explicitly as a `now : Nat` argument;
  every store method that reads the clock receives the same `now` its JS body
  would observe.
* JS strings are modelled as `List Char`; single-character `split` is
  `splitChar`, `join`/template concatenation is `joinChar`/`++`.
* Code that `throw`s is modelled in `Except String _`; the thrown message is
  the `.error` payload.
-/

set_option autoImplicit false

deriving instance DecidableEq for Except

/-- JS `Map.prototype.set` / object property assignment on an insertion-ordered
association list: an existing key is updated in place (keeping its position),
a new key is appended at the end. -/
def jsMapSet {β : Type} : List (String × β) → String → β → List (String × β)
  | [], k, v => [(k, v)]
  | (k', v') :: t, k, v => if k' = k then (k, v) :: t else (k', v') :: jsMapSet t k v

/-- JS `Map.prototype.get` / object property read: first entry with the key. -/
def jsMapLookup {β : Type} : List (String × β) → String → Option β
  | [], _ => none
  | (k', v') :: t, k => if k' = k then some v' else jsMapLookup t k

/-- JS `Map.prototype.delete`: remove the entry with the key (keys are unique). -/
def jsMapDelete {β : Type} (l : List (String × β)) (k : String) : List (String × β) :=
  l.filter (fun p => p.1 ≠ k)

/-- The `RateLimitRecord` from `src/unnamed/part_010`. -/
structure RateLimitRecord where
  count : Nat
  resetTime : Nat
  firstRequest : Nat
deriving DecidableEq, Repr

/-- The `RateLimitStore` state from `src/unnamed/part_010`: the private `Map` in
insertion order plus the `maxEntries` option fixed at construction.
(`cleanupInterval` drives only the background timer, which is outside the
per-call semantics modelled here.) -/
structure RateLimitStore where
  entries : List (String × RateLimitRecord)
  maxEntries : Nat
deriving DecidableEq, Repr

/-- The `new RateLimitStore({maxEntries})`: `options.maxEntries || 10000`
(`0` is falsy in JS, so it also yields the 10000 default). -/
def RateLimitStore.mk' (maxEntries : Nat) : RateLimitStore :=
  ⟨[], if maxEntries = 0 then 10000 else maxEntries⟩

def RateLimitStore.size (st : RateLimitStore) : Nat := st.entries.length

def RateLimitStore.hasKey (st : RateLimitStore) (key : String) : Bool :=
  (jsMapLookup st.entries key).isSome

/-- The `RateLimitStore.get`: return the record, lazily deleting it (and returning
`undefined`) when `Date.now() > record.resetTime` (strict comparison in the
source). Returns the updated store together with the result. -/
def RateLimitStore.get (st : RateLimitStore) (key : String) (now : Nat) :
    RateLimitStore × Option RateLimitRecord :=
  match jsMapLookup st.entries key with
  | some record =>
    if now > record.resetTime then
      ({ st with entries := jsMapDelete st.entries key }, none)
    else
      (st, some record)
  | none => (st, none)

/-- The `RateLimitStore.cleanup`: delete every entry with `now > record.resetTime`.
The source collects the expired keys and deletes each; keeping the complement
is the same map. -/
def RateLimitStore.cleanup (st : RateLimitStore) (now : Nat) : RateLimitStore :=
  { st with entries := st.entries.filter (fun p => !(now > p.2.resetTime)) }

/-- The `RateLimitStore.set`: before inserting a *new* key at capacity, run
`cleanup()`; if still at capacity, delete `store.keys().next().value` — the
oldest-inserted key — but only under JS truthiness (`if (firstKey)`), so an
empty-string first key is *not* deleted. Finally `store.set(key, record)`. -/
def RateLimitStore.set (st : RateLimitStore) (key : String) (record : RateLimitRecord)
    (now : Nat) : RateLimitStore :=
  if st.size ≥ st.maxEntries ∧ ¬st.hasKey key then
    let st1 := st.cleanup now
    let st2 :=
      if st1.size ≥ st1.maxEntries then
        match st1.entries.head? with
        | some (firstKey, _) =>
          if firstKey ≠ "" then { st1 with entries := jsMapDelete st1.entries firstKey }
          else st1
        | none => st1
      else st1
    { st2 with entries := jsMapSet st2.entries key record }
  else
    { st with entries := jsMapSet st.entries key record }

/-- The `RateLimitStore.increment`: read through `get` (lazy expiry), then either
bump the live record (`now < resetTime`) or start a fresh window
`{count: 1, resetTime: now + window, firstRequest: now}`. Returns the updated
store and the record the JS method returns. -/
def RateLimitStore.increment (st : RateLimitStore) (key : String) (window : Nat)
    (now : Nat) : RateLimitStore × RateLimitRecord :=
  let got := st.get key now
  match got.2 with
  | some existing =>
    if now < existing.resetTime then
      let bumped := { existing with count := existing.count + 1 }
      (got.1.set key bumped now, bumped)
    else
      let fresh : RateLimitRecord := ⟨1, now + window, now⟩
      (got.1.set key fresh now, fresh)
  | none =>
    let fresh : RateLimitRecord := ⟨1, now + window, now⟩
    (got.1.set key fresh now, fresh)

/-- The `RateLimitStore.reset`: plain delete. -/
def RateLimitStore.reset (st : RateLimitStore) (key : String) : RateLimitStore :=
  { st with entries := jsMapDelete st.entries key }

/-- The `RateLimitConfig` from `src/lib/utils/rate-limit-config.ts`. Optional JS
fields are `Option`s; `requests` may be any number the caller supplies. -/
structure RateLimitConfig where
  requests : Int
  window : Nat
  burstLimit : Option Int
  skipSuccessfulRequests : Option Bool
  message : Option String
deriving DecidableEq, Repr

/-- The `effectiveLimit` computed inside `checkRateLimit`:
`config.burstLimit && record.count <= config.burstLimit ? config.burstLimit
: config.requests` (JS truthiness: a `burstLimit` of `0` is falsy). -/
def effectiveLimit (config : RateLimitConfig) (count : Nat) : Int :=
  match config.burstLimit with
  | some b => if b ≠ 0 ∧ (count : Int) ≤ b then b else config.requests
  | none => config.requests

/-- The `RateLimitResult` from `src/lib/middleware/rate-limiting.ts`. -/
structure RateLimitResult where
  allowed : Bool
  limit : Int
  remaining : Int
  resetTime : Nat
  retryAfter : Int
deriving DecidableEq, Repr

/-- The `Math.ceil(x / 1000)` for an integer numerator: `⌈x/1000⌉ = ⌊(x+999)/1000⌋`. -/
def ceilDiv1000 (x : Int) : Int := Int.fdiv (x + 999) 1000

/-- The `checkRateLimit` from `src/lib/middleware/rate-limiting.ts`: increment the
store, then compare against the effective limit; `remaining = max 0 (limit -
count)`, `retryAfter = max 0 ⌈(resetTime - now)/1000⌉`. Returns the updated
store with the result. -/
def checkRateLimit (key : String) (config : RateLimitConfig) (st : RateLimitStore)
    (now : Nat) : RateLimitStore × RateLimitResult :=
  let incr := st.increment key config.window now
  let record := incr.2
  let eff := effectiveLimit config record.count
  let allowed := decide ((record.count : Int) ≤ eff)
  let remaining := max 0 (eff - (record.count : Int))
  let retryAfter := ceilDiv1000 ((record.resetTime : Int) - (now : Int))
  (incr.1, ⟨allowed, eff, remaining, record.resetTime, max 0 retryAfter⟩)

/-- The `BurstProtection` state: two private `RateLimitStore`s (both constructed
with default options). -/
structure BurstProtection where
  burstStore : RateLimitStore
  sustainedStore : RateLimitStore
deriving DecidableEq, Repr

/-- The `new BurstProtection()`. -/
def BurstProtection.init : BurstProtection :=
  ⟨RateLimitStore.mk' 0, RateLimitStore.mk' 0⟩

/-- The `BurstProtection.check`: runs `checkRateLimit` on **both** stores
unconditionally, then returns the burst result when the burst check denied,
otherwise the sustained result with `allowed = burst && sustained`. -/
def BurstProtection.check (bp : BurstProtection) (key : String)
    (burstConfig sustainedConfig : RateLimitConfig) (now : Nat) :
    BurstProtection × RateLimitResult :=
  let burst := checkRateLimit ("burst:" ++ key) burstConfig bp.burstStore now
  let sustained := checkRateLimit ("sustained:" ++ key) sustainedConfig bp.sustainedStore now
  let allowed := burst.2.allowed && sustained.2.allowed
  if !burst.2.allowed then (⟨burst.1, sustained.1⟩, burst.2)
  else (⟨burst.1, sustained.1⟩, { sustained.2 with allowed := allowed })

/-- The `MemoryEfficientStore` from `src/unnamed/part_010`: the inherited
`RateLimitStore` state plus the LRU `accessOrder` map and monotone
`accessCounter`. -/
structure MemoryEfficientStore where
  base : RateLimitStore
  accessOrder : List (String × Nat)
  accessCounter : Nat
deriving DecidableEq, Repr

/-- The scan in `evictLRU`: the key whose access value is the strict minimum
(first entry wins ties), starting from `oldestAccess = Infinity`
(represented by the `none` accumulator). -/
def findLRUKey (accessOrder : List (String × Nat)) : Option String :=
  (accessOrder.foldl
    (fun best p =>
      match best with
      | none => some p
      | some b => if p.2 < b.2 then some p else best)
    none).map (·.1)

/-- The `MemoryEfficientStore.reset`: `super.reset` plus `accessOrder.delete`. -/
def MemoryEfficientStore.reset (m : MemoryEfficientStore) (key : String) :
    MemoryEfficientStore :=
  { m with base := m.base.reset key, accessOrder := jsMapDelete m.accessOrder key }

/-- The `evictLRU`: delete the least-recently-used key — guarded by JS truthiness
(`if (oldestKey)`), so an empty-string LRU key is not evicted. -/
def MemoryEfficientStore.evictLRU (m : MemoryEfficientStore) : MemoryEfficientStore :=
  match findLRUKey m.accessOrder with
  | some oldestKey =>
    if oldestKey ≠ "" then
      let m1 := m.reset oldestKey
      { m1 with accessOrder := jsMapDelete m1.accessOrder oldestKey }
    else m
  | none => m

/-- The `MemoryEfficientStore.get`: `super.get`, bumping the access counter when a
record is returned. -/
def MemoryEfficientStore.get (m : MemoryEfficientStore) (key : String) (now : Nat) :
    MemoryEfficientStore × Option RateLimitRecord :=
  let got := m.base.get key now
  match got.2 with
  | some record =>
    ({ base := got.1, accessOrder := jsMapSet m.accessOrder key m.accessCounter,
       accessCounter := m.accessCounter + 1 }, some record)
  | none => ({ m with base := got.1 }, none)

/-- The `MemoryEfficientStore.set`: evict the LRU entry when inserting a new key at
capacity, then `super.set` (which applies its own cleanup/eviction), then bump
the access counter for the key. -/
def MemoryEfficientStore.set (m : MemoryEfficientStore) (key : String)
    (record : RateLimitRecord) (now : Nat) : MemoryEfficientStore :=
  let m1 :=
    if m.base.size ≥ m.base.maxEntries ∧ ¬m.base.hasKey key then m.evictLRU else m
  { base := m1.base.set key record now,
    accessOrder := jsMapSet m1.accessOrder key m1.accessCounter,
    accessCounter := m1.accessCounter + 1 }

/-- The `increment` as inherited by `MemoryEfficientStore`: the
`RateLimitStore.increment` body, but `this.get`/`this.set` dispatch to the
overridden methods. -/
def MemoryEfficientStore.increment (m : MemoryEfficientStore) (key : String)
    (window : Nat) (now : Nat) : MemoryEfficientStore × RateLimitRecord :=
  let got := m.get key now
  match got.2 with
  | some existing =>
    if now < existing.resetTime then
      let bumped := { existing with count := existing.count + 1 }
      (got.1.set key bumped now, bumped)
    else
      let fresh : RateLimitRecord := ⟨1, now + window, now⟩
      (got.1.set key fresh now, fresh)
  | none =>
    let fresh : RateLimitRecord := ⟨1, now + window, now⟩
    (got.1.set key fresh now, fresh)

/-- A `set`/`increment` call against a store, with its `Date.now()` value. -/
inductive StoreOp where
  | setOp (key : String) (record : RateLimitRecord) (now : Nat)
  | incrOp (key : String) (window : Nat) (now : Nat)
deriving DecidableEq, Repr

def StoreOp.key : StoreOp → String
  | .setOp k _ _ => k
  | .incrOp k _ _ => k

def applyOp (st : RateLimitStore) : StoreOp → RateLimitStore
  | .setOp k r n => st.set k r n
  | .incrOp k w n => (st.increment k w n).1

def applyOps (st : RateLimitStore) (ops : List StoreOp) : RateLimitStore :=
  ops.foldl applyOp st

def applyOpMES (m : MemoryEfficientStore) : StoreOp → MemoryEfficientStore
  | .setOp k r n => m.set k r n
  | .incrOp k w n => (m.increment k w n).1

def applyOpsMES (m : MemoryEfficientStore) (ops : List StoreOp) : MemoryEfficientStore :=
  ops.foldl applyOpMES m

/-- Run `checkRateLimit` once per timestamp in the list, threading the store;
collects the per-call results in order. -/
def runCheck (key : String) (config : RateLimitConfig) :
    RateLimitStore → List Nat → RateLimitStore × List RateLimitResult
  | st, [] => (st, [])
  | st, t :: ts =>
    let step := checkRateLimit key config st t
    let rest := runCheck key config step.1 ts
    (rest.1, step.2 :: rest.2)

/-! ## IP utilities (`src/lib/utils/ip-utils.ts`)

JS strings are `List Char`; `s.split(c)` for a one-character separator is
`splitChar c`, `parts.join(c)` is `joinChar c`. -/

/-- The `s.split(c)` for a single-character separator: splits at every occurrence,
keeping empty pieces, and yields `[s]` when the separator does not occur
(`"".split(c)` is `[""]`). -/
def splitChar (c : Char) : List Char → List (List Char)
  | [] => [[]]
  | a :: t =>
    let r := splitChar c t
    if a = c then [] :: r
    else
      match r with
      | h :: t' => (a :: h) :: t'
      | [] => [[a]]

/-- The `parts.join(c)` for a single-character separator. -/
def joinChar (c : Char) : List (List Char) → List Char
  | [] => []
  | [p] => p
  | p :: r => p ++ c :: joinChar c r

/-- JS `String.prototype.trim`: strip leading and trailing whitespace. -/
def jsTrim (l : List Char) : List Char :=
  ((l.dropWhile Char.isWhitespace).reverse.dropWhile Char.isWhitespace).reverse

/-- Decimal value of a digit string, most significant digit first
(the value `parseInt(s, 10)` computes on an all-digit string). -/
def digitsToNat (l : List Char) : Nat :=
  l.foldl (fun acc c => acc * 10 + (c.toNat - 48)) 0

/-- One octet of the `validateIP` IPv4 regex
`(25[0-5]|2[0-4][0-9]|[01]?[0-9][0-9]?)`.  The three alternatives accept
exactly: any 1- or 2-digit string, a 3-digit string starting with `0`/`1`
(value ≤ 199), `2[0-4][0-9]` (200–249) and `25[0-5]` (250–255) — i.e. a
nonempty all-digit string of length ≤ 3 whose value is ≤ 255. -/
def matchOctet (l : List Char) : Bool :=
  !l.isEmpty && l.all Char.isDigit && decide (l.length ≤ 3) && decide (digitsToNat l ≤ 255)

/-- The anchored IPv4 regex test in `validateIP`: four `.`-separated octets. -/
def ipv4Test (l : List Char) : Bool :=
  let parts := splitChar '.' l
  decide (parts.length = 4) && parts.all matchOctet

/-- A hex group `[0-9a-fA-F]{1,4}` of the IPv6 regex. -/
def matchHexGroup (l : List Char) : Bool :=
  !l.isEmpty && decide (l.length ≤ 4) &&
    l.all (fun c => c.isDigit || ('a' ≤ c ∧ c ≤ 'f') || ('A' ≤ c ∧ c ≤ 'F'))

/-- The (simplified) IPv6 regex test in `validateIP`:
`^(h{1,4}:){7}h{1,4}$` — eight `:`-separated nonempty hex groups — or the
literals `::1` and `::`. -/
def ipv6Test (l : List Char) : Bool :=
  (let parts := splitChar ':' l
   decide (parts.length = 8) && parts.all matchHexGroup)
  || decide (l = "::1".toList) || decide (l = "::".toList)

/-- The `validateIP`: IPv4 regex, IPv6 regex, or the literal `localhost`
(the `!ip` guard rejects the empty string, which fails both regexes anyway). -/
def validateIP (l : List Char) : Bool :=
  ipv4Test l || ipv6Test l || decide (l = "localhost".toList)

/-- The `isIPv6`: `ip.includes(':')`. -/
def isIPv6 (l : List Char) : Bool := l.contains ':'

/-- Reversed decimal digits of `n` (empty for `0`), with structural fuel:
one unit of fuel per division step suffices because `(n+1)/10 ≤ n`, so the
fuel-exhausted branch is unreachable from `natReprRev`. -/
def natReprRevGo : Nat → Nat → List Char
  | _, 0 => []
  | 0, _ + 1 => []
  | fuel + 1, n + 1 => Nat.digitChar ((n + 1) % 10) :: natReprRevGo fuel ((n + 1) / 10)

/-- Reversed decimal digits of `n` (empty for `0`). -/
def natReprRev (n : Nat) : List Char := natReprRevGo n n

/-- The `Number.prototype.toString` for a natural number: canonical decimal,
no leading zeros. -/
def natRepr (n : Nat) : List Char :=
  if n = 0 then ['0'] else (natReprRev n).reverse

/-- The `parseInt(part, 10).toString()` as applied to the `.`-split parts of a
validated IPv4 string: parse the maximal leading digit prefix (`NaN` when
empty).  Leading `+`/`-`/whitespace handling of `parseInt` is irrelevant here
because validated parts are all-digit strings. -/
def parseIntToStr (l : List Char) : List Char :=
  let d := l.takeWhile Char.isDigit
  if d.isEmpty then "NaN".toList else natRepr (digitsToNat d)

/-- The `part.replace(/^0+/, '') || '0'` inside `compressIPv6`, with the
`if (part === '') return part` guard. -/
def stripLeadZeros (p : List Char) : List Char :=
  if p.isEmpty then p
  else
    match p.dropWhile (fun c => c = '0') with
    | [] => ['0']
    | r => r

/-- The `ipv6.includes('::')`. -/
def hasDoubleColon : List Char → Bool
  | [] => false
  | [_] => false
  | a :: b :: rest => (a = ':' ∧ b = ':' : Bool) || hasDoubleColon (b :: rest)

/-- The zero-run scan of `compressIPv6` (loop plus the final check): returns
`(maxZeroStart, maxZeroLength)` with the `-1` sentinel for "no run found".
A run is only recorded when its length exceeds the best so far *and* is > 1. -/
def zeroRunLoop : List (List Char) → Nat → Int → Nat → Int → Nat → Int × Nat
  | [], _, maxS, maxL, curS, curL =>
    if curL > maxL ∧ curL > 1 then (curS, curL) else (maxS, maxL)
  | p :: rest, i, maxS, maxL, curS, curL =>
    if p = ['0'] then
      if curS = -1 then zeroRunLoop rest (i + 1) maxS maxL (i : Int) 1
      else zeroRunLoop rest (i + 1) maxS maxL curS (curL + 1)
    else
      if curL > maxL ∧ curL > 1 then zeroRunLoop rest (i + 1) (curS) curL (-1) 0
      else zeroRunLoop rest (i + 1) maxS maxL (-1) 0

/-- The `compressIPv6`: pass through strings without `:` or already containing
`::`; otherwise strip leading zeros per group and compress the longest run
(length > 1) of `"0"` groups to `::`. -/
def compressIPv6 (ipv6 : List Char) : List Char :=
  if !ipv6.contains ':' then ipv6
  else if hasDoubleColon ipv6 then ipv6
  else
    let parts := splitChar ':' ipv6
    let normalized := parts.map stripLeadZeros
    let run := zeroRunLoop normalized 0 (-1) 0 (-1) 0
    if run.1 ≠ -1 ∧ run.2 > 1 then
      let s := run.1.toNat
      let before := normalized.take s
      let after := normalized.drop (s + run.2)
      if before.isEmpty ∧ after.isEmpty then "::".toList
      else if before.isEmpty then "::".toList ++ joinChar ':' after
      else if after.isEmpty then joinChar ':' before ++ "::".toList
      else joinChar ':' before ++ "::".toList ++ joinChar ':' after
    else joinChar ':' normalized

/-- The `normalizeIP`: throw on invalid input; map `localhost`/`::1` to
`127.0.0.1`; strip leading zeros of IPv4 octets via `parseInt`; lower-case and
compress IPv6. -/
def normalizeIP (ip : List Char) : Except String (List Char) :=
  if !validateIP ip then .error "Invalid IP address"
  else if ip = "localhost".toList ∨ ip = "::1".toList then .ok "127.0.0.1".toList
  else if !isIPv6 ip then
    .ok (joinChar '.' ((splitChar '.' ip).map parseIntToStr))
  else .ok (compressIPv6 (ip.map Char.toLower))

/-- The `normalizeIP(normalizeIP(x))` with the inner exception propagating. -/
def normalizeTwice (ip : List Char) : Except String (List Char) :=
  (normalizeIP ip).bind normalizeIP

/-- The three headers `getClientIP` reads, in the order the source reads them
(`null` when absent). -/
structure HeaderMap where
  xForwardedFor : Option (List Char)
  xRealIP : Option (List Char)
  cfConnectingIP : Option (List Char)

/-- The `x-forwarded-for` branch of `getClientIP`: under JS truthiness of the
header, split on commas, trim, take the first entry; it is a candidate when
nonempty and valid. -/
def candidateXff : Option (List Char) → Option (List Char)
  | some fwd =>
    if fwd.isEmpty then none
    else
      let ips := (splitChar ',' fwd).map jsTrim
      let firstIP := ips.headD []
      if !firstIP.isEmpty && validateIP firstIP then some firstIP else none
  | none => none

/-- The `cf-connecting-ip` / `x-real-ip` branches: the header itself is the
candidate when truthy and valid. -/
def candidateHeader : Option (List Char) → Option (List Char)
  | some v => if !v.isEmpty && validateIP v then some v else none
  | none => none

/-- The `getClientIP` from `src/lib/utils/ip-utils.ts`: the `x-forwarded-for`
branch comes **first** in the source, then `cf-connecting-ip`, then
`x-real-ip`, with the `127.0.0.1` fallback. -/
def getClientIP (h : HeaderMap) : Except String (List Char) :=
  match candidateXff h.xForwardedFor with
  | some ip => normalizeIP ip
  | none =>
    match candidateHeader h.cfConnectingIP with
    | some ip => normalizeIP ip
    | none =>
      match candidateHeader h.xRealIP with
      | some ip => normalizeIP ip
      | none => .ok "127.0.0.1".toList

/-- Modelled from the spec: the header-priority order the specification
describes for `getClientIP` — `cf-connecting-ip` first, then the first
`x-forwarded-for` entry, then `x-real-ip` (the source order differs). -/
def getClientIPSpecOrder (h : HeaderMap) : Except String (List Char) :=
  match candidateHeader h.cfConnectingIP with
  | some ip => normalizeIP ip
  | none =>
    match candidateXff h.xForwardedFor with
    | some ip => normalizeIP ip
    | none =>
      match candidateHeader h.xRealIP with
      | some ip => normalizeIP ip
      | none => .ok "127.0.0.1".toList

/-! ## Rate-limit configuration (`src/lib/utils/rate-limit-config.ts`) -/

/-- A `MethodSpecificConfig` entry: per-HTTP-method optional configs. -/
structure MethodSpecificConfig where
  methGET : Option RateLimitConfig
  methPOST : Option RateLimitConfig
  methPUT : Option RateLimitConfig
  methDELETE : Option RateLimitConfig
  methPATCH : Option RateLimitConfig
deriving DecidableEq, Repr

/-- A value of the `RATE_LIMIT_CONFIGS` table:
`RateLimitConfig | MethodSpecificConfig`. -/
inductive ConfigEntry where
  | single (c : RateLimitConfig)
  | byMethod (m : MethodSpecificConfig)
deriving DecidableEq, Repr

/-- The `(config as MethodSpecificConfig)[method]`: dynamic property access on the
five method keys; any other method name reads `undefined`. -/
def methodGet (m : MethodSpecificConfig) (method : String) : Option RateLimitConfig :=
  if method = "GET" then m.methGET
  else if method = "POST" then m.methPOST
  else if method = "PUT" then m.methPUT
  else if method = "DELETE" then m.methDELETE
  else if method = "PATCH" then m.methPATCH
  else none

/-- The `getMethodSpecificConfig`: a plain config (`'requests' in config`) is
returned as-is; a method-keyed entry is indexed by the method (possibly
`undefined`). -/
def getMethodSpecificConfig (config : ConfigEntry) (method : String) :
    Option RateLimitConfig :=
  match config with
  | .single c => some c
  | .byMethod m => methodGet m method

/-- The `RATE_LIMIT_CONFIGS` literal, in source (insertion) order. -/
def rateLimitConfigs : List (String × ConfigEntry) :=
  [ ("/api/auth/magic-link", .single ⟨5, 900000, some 2, some true,
      some "Too many login attempts. Please wait 15 minutes before trying again."⟩),
    ("/api/auth/logout", .single ⟨10, 300000, some 3, none,
      some "Too many logout requests. Please wait 5 minutes."⟩),
    ("/api/auth/callback", .single ⟨10, 900000, some 3, none,
      some "Too many callback attempts. Please wait 15 minutes."⟩),
    ("/api/user/profile", .byMethod
      ⟨some ⟨30, 600000, none, none, some "Too many profile requests. Please wait 10 minutes."⟩,
       none,
       some ⟨10, 600000, none, none, some "Too many profile updates. Please wait 10 minutes."⟩,
       some ⟨2, 3600000, none, none, some "Account deletion limited. Please wait 1 hour."⟩,
       none⟩),
    ("/api/incidents", .byMethod
      ⟨some ⟨100, 600000, none, none, some "Too many incident requests. Please wait 10 minutes."⟩,
       some ⟨20, 600000, none, none, some "Too many incident submissions. Please wait 10 minutes."⟩,
       none, none, none⟩),
    ("/api/incidents/[id]", .byMethod
      ⟨some ⟨50, 600000, none, none, some "Too many individual incident requests. Please wait 10 minutes."⟩,
       none,
       some ⟨30, 600000, none, none, some "Too many incident updates. Please wait 10 minutes."⟩,
       some ⟨10, 600000, none, none, some "Too many incident deletions. Please wait 10 minutes."⟩,
       none⟩),
    ("default", .single ⟨100, 3600000, none, none,
      some "Rate limit exceeded. Please try again later."⟩) ]

/-- A token of the pattern regex built by `matchEndpointPattern`: a literal
character, or the `([^/]+)` wildcard a `[param]` segment is replaced with. -/
inductive PatTok where
  | lit (c : Char)
  | wild
deriving DecidableEq, Repr

/-- The `pattern.replace(/\[([^\]]+)\]/g, '([^/]+)')`: each `[...]` group with a
nonempty bracket-free body becomes a wildcard; an unmatched `[` stays a
literal.  (The table's patterns contain no other regex metacharacters, so the
remaining characters are literals.)  Structural fuel: every step consumes at
least one character, so `l.length` units of fuel make the fuel-exhausted
branch unreachable. -/
def parsePatternGo : Nat → List Char → List PatTok
  | _, [] => []
  | 0, _ :: _ => []
  | fuel + 1, '[' :: rest =>
    let inner := rest.takeWhile (fun c => c ≠ ']')
    match rest.dropWhile (fun c => c ≠ ']') with
    | ']' :: rest2 =>
      if inner.isEmpty then .lit '[' :: parsePatternGo fuel rest
      else .wild :: parsePatternGo fuel rest2
    | _ => .lit '[' :: parsePatternGo fuel rest
  | fuel + 1, c :: rest => .lit c :: parsePatternGo fuel rest

def parsePattern (l : List Char) : List PatTok := parsePatternGo l.length l

/-- Anchored matching of the token list against a path (`^...$`): a wildcard
consumes one or more non-`/` characters, with backtracking — the semantics of
the `([^/]+)` regex fragment.  Structural fuel: each step shrinks
`toks.length + path.length`, so that sum as initial fuel makes the
fuel-exhausted branch unreachable. -/
def toksMatchGo : Nat → List PatTok → List Char → Bool
  | _, [], [] => true
  | _, [], _ :: _ => false
  | _, .lit _ :: _, [] => false
  | _, .wild :: _, [] => false
  | 0, _ :: _, _ => false
  | fuel + 1, .lit c :: ts, x :: xs => c = x && toksMatchGo fuel ts xs
  | fuel + 1, .wild :: ts, x :: xs =>
    decide (x ≠ '/') && (toksMatchGo fuel ts xs || toksMatchGo fuel (.wild :: ts) xs)

def toksMatch (toks : List PatTok) (path : List Char) : Bool :=
  toksMatchGo (toks.length + path.length) toks path

/-- The `matchEndpointPattern`: exact string equality, or the dynamic-route regex. -/
def matchEndpointPattern (actualPath pattern : String) : Bool :=
  decide (actualPath = pattern) || toksMatch (parsePattern pattern.toList) actualPath.toList

/-- The `ENVIRONMENT_CONFIGS` rows. -/
structure EnvConfig where
  multiplier : Int
  enabled : Bool
deriving DecidableEq, Repr

/-- The `getEnvironmentConfig(env)`: the three known rows, with
`|| ENVIRONMENT_CONFIGS.production` for unknown names. -/
def getEnvironmentConfig (env : String) : EnvConfig :=
  if env = "development" then ⟨10, false⟩
  else if env = "test" then ⟨1, false⟩
  else ⟨1, true⟩

/-- The entry `getEndpointConfig` settles on before method selection: the first
table entry whose pattern matches, else `RATE_LIMIT_CONFIGS.default`.  (In the
source, a table with no `default` key would make the subsequent `'requests' in
config` throw on `undefined`; every table considered here has one, so the
final fallback constant is unreachable.) -/
def resolveEntry (table : List (String × ConfigEntry)) (path : String) : ConfigEntry :=
  match table.find? (fun p => matchEndpointPattern path p.1) with
  | some p => p.2
  | none =>
    match jsMapLookup table "default" with
    | some e => e
    | none => .single ⟨0, 0, none, none, none⟩

/-- The fields of `finalConfig` in `getEndpointConfig`, each possibly
`undefined`: `getMethodSpecificConfig(matched, method) || (matched as
RateLimitConfig)`.  When the matched entry is method-keyed and lacks the
method, the *method-keyed object itself* is used, and none of `requests`,
`window`, `burstLimit`, `message` exist on it. -/
structure PreConfig where
  requests : Option Int
  window : Option Nat
  burstLimit : Option Int
  skipSuccessfulRequests : Option Bool
  message : Option String
deriving DecidableEq, Repr

def preOfConfig (c : RateLimitConfig) : PreConfig :=
  ⟨some c.requests, some c.window, c.burstLimit, c.skipSuccessfulRequests, c.message⟩

def resolveFinal (table : List (String × ConfigEntry)) (path method : String) :
    PreConfig :=
  match getMethodSpecificConfig (resolveEntry table path) method with
  | some c => preOfConfig c
  | none => ⟨none, none, none, none, none⟩

/-- A JS number as it occurs in resolved configs: an integer, `Infinity`
(the disabled-environment sentinel) or `NaN` (`undefined * multiplier`). -/
inductive JSNum where
  | num (n : Int)
  | inf
  | nan
deriving DecidableEq, Repr

/-- The `Math.floor(requests * multiplier)`: exact on integers,
`NaN` when `requests` is `undefined`. -/
def jsFloorMul : Option Int → Int → JSNum
  | some n, m => .num (n * m)
  | none, _ => .nan

/-- The object `getEndpointConfig` returns (spread of `finalConfig` with
`requests` overridden; the method-key residue of a cast method-keyed object is
not tracked beyond its missing scalar fields). -/
structure ResolvedConfig where
  requests : JSNum
  window : Option Nat
  burstLimit : Option Int
  skipSuccessfulRequests : Option Bool
  message : Option String
deriving DecidableEq, Repr

/-- The `getEndpointConfig(path, method)` with the environment name explicit:
the `Infinity` sentinel when the environment disables rate limiting, else the
resolved config with `requests` scaled by the multiplier. -/
def getEndpointConfig (table : List (String × ConfigEntry)) (path method env : String) :
    ResolvedConfig :=
  let envConfig := getEnvironmentConfig env
  if !envConfig.enabled then
    ⟨.inf, some 1000, none, none, some "Rate limiting disabled in this environment"⟩
  else
    let finalConfig := resolveFinal table path method
    ⟨jsFloorMul finalConfig.requests envConfig.multiplier, finalConfig.window,
     finalConfig.burstLimit, finalConfig.skipSuccessfulRequests, finalConfig.message⟩

/-- The `validateRateLimitConfig`: rejects `requests <= 0`, `window <= 0`, and a
*truthy* `burstLimit` that is `<= 0` (so `burstLimit: 0`, being falsy, is
accepted).  The `typeof` checks always pass in this typed model. -/
def validateRateLimitConfig (config : RateLimitConfig) : Bool :=
  if config.requests ≤ 0 then false
  else if config.window ≤ 0 then false
  else
    match config.burstLimit with
    | some b => if b ≠ 0 ∧ b ≤ 0 then false else true
    | none => true

/-- Outcome of `overrideRateLimitConfig`: the table after the call and the
thrown error message, if any (a throw leaves the table untouched). -/
structure OverrideOutcome where
  newTable : List (String × ConfigEntry)
  error : Option String
deriving DecidableEq, Repr

/-- The `overrideRateLimitConfig(path, config)`: install under `path` when the
config validates, else throw `'Invalid rate limit configuration'`. -/
def overrideRateLimitConfig (table : List (String × ConfigEntry)) (path : String)
    (config : RateLimitConfig) : OverrideOutcome :=
  if validateRateLimitConfig config then
    ⟨jsMapSet table path (.single config), none⟩
  else
    ⟨table, some "Invalid rate limit configuration"⟩

/-! ## Verification-side definitions -/

/-- The store invariant for the capacity bound: within capacity, and no stored
key is the empty string (the JS truthiness guard `if (firstKey)` in `set`
skips eviction for an empty-string key). -/
def GoodStore (st : RateLimitStore) : Prop :=
  st.size ≤ st.maxEntries ∧ ∀ p ∈ st.entries, p.1 ≠ ""

/-- The same invariant for the LRU store, on its inherited base state. -/
def GoodMES (m : MemoryEfficientStore) : Prop := GoodStore m.base

/-! ## Helper lemmas for the association-list map -/

theorem jsMapLookup_cons {β : Type} (k' : String) (v' : β) (t : List (String × β))
    (k : String) :
    jsMapLookup ((k', v') :: t) k = if k' = k then some v' else jsMapLookup t k := rfl

theorem jsMapLookup_jsMapSet_self {β : Type} (l : List (String × β)) (k : String) (v : β) :
    jsMapLookup (jsMapSet l k v) k = some v := by
  induction l with
  | nil => simp [jsMapSet, jsMapLookup]
  | cons p t ih =>
    by_cases h : p.1 = k
    · simp [jsMapSet, h, jsMapLookup]
    · simp [jsMapSet, h, jsMapLookup, ih]

theorem length_jsMapSet_le {β : Type} (l : List (String × β)) (k : String) (v : β) :
    (jsMapSet l k v).length ≤ l.length + 1 := by
  induction l with
  | nil => simp [jsMapSet]
  | cons p t ih =>
    by_cases h : p.1 = k
    · simp [jsMapSet, h]
    · simp only [jsMapSet, if_neg h, List.length_cons]
      omega

theorem length_jsMapSet_of_mem {β : Type} (l : List (String × β)) (k : String) (v : β)
    (h : (jsMapLookup l k).isSome) : (jsMapSet l k v).length = l.length := by
  induction l with
  | nil => simp [jsMapLookup] at h
  | cons p t ih =>
    by_cases hp : p.1 = k
    · simp [jsMapSet, hp]
    · simp only [jsMapLookup, if_neg hp] at h
      simp [jsMapSet, hp, ih h]

theorem mem_jsMapSet {β : Type} (l : List (String × β)) (k : String) (v : β)
    (p : String × β) (h : p ∈ jsMapSet l k v) : p = (k, v) ∨ p ∈ l := by
  induction l with
  | nil => simpa [jsMapSet] using h
  | cons q t ih =>
    by_cases hq : q.1 = k
    · simp only [jsMapSet, if_pos hq, List.mem_cons] at h
      rcases h with h | h
      · exact Or.inl h
      · exact Or.inr (List.mem_cons_of_mem _ h)
    · simp only [jsMapSet, if_neg hq, List.mem_cons] at h
      rcases h with h | h
      · exact Or.inr (h ▸ List.mem_cons_self q t)
      · rcases ih h with h' | h'
        · exact Or.inl h'
        · exact Or.inr (List.mem_cons_of_mem _ h')

theorem jsMapLookup_delete_self {β : Type} (l : List (String × β)) (k : String) :
    jsMapLookup (jsMapDelete l k) k = none := by
  induction l with
  | nil => simp [jsMapDelete, jsMapLookup]
  | cons p t ih =>
    by_cases hp : p.1 = k
    · simpa [jsMapDelete, hp] using ih
    · simpa [jsMapDelete, jsMapLookup, hp] using ih

theorem mem_jsMapDelete {β : Type} (l : List (String × β)) (k : String)
    (p : String × β) (h : p ∈ jsMapDelete l k) : p ∈ l :=
  (List.mem_filter.mp h).1

/-! ## Store invariant lemmas -/

theorem cleanup_maxEntries (st : RateLimitStore) (now : Nat) :
    (st.cleanup now).maxEntries = st.maxEntries := rfl

theorem cleanup_size_le (st : RateLimitStore) (now : Nat) :
    (st.cleanup now).size ≤ st.size :=
  List.length_filter_le _ _

theorem cleanup_mem (st : RateLimitStore) (now : Nat) (p : String × RateLimitRecord)
    (h : p ∈ (st.cleanup now).entries) : p ∈ st.entries :=
  (List.mem_filter.mp h).1

theorem set_maxEntries (st : RateLimitStore) (key : String) (r : RateLimitRecord)
    (now : Nat) : (st.set key r now).maxEntries = st.maxEntries := by
  unfold RateLimitStore.set
  dsimp only
  split
  · split
    · split
      · split <;> rfl
      · rfl
    · rfl
  · rfl

theorem goodStore_set (st : RateLimitStore) (key : String) (r : RateLimitRecord)
    (now : Nat) (hkey : key ≠ "") (hmax : 1 ≤ st.maxEntries) (h : GoodStore st) :
    GoodStore (st.set key r now) := by
  obtain ⟨hsize, hkeys⟩ := h
  unfold GoodStore RateLimitStore.set
  dsimp only
  split
  case isTrue hc =>
    obtain ⟨hfull, hnew⟩ := hc
    -- after cleanup
    have h1size : (st.cleanup now).size ≤ st.maxEntries :=
      le_trans (cleanup_size_le st now) hsize
    have h1keys : ∀ p ∈ (st.cleanup now).entries, p.1 ≠ "" :=
      fun p hp => hkeys p (cleanup_mem st now p hp)
    split
    case isTrue h2 =>
      rw [cleanup_maxEntries] at h2
      -- cleanup left the store exactly full, hence nonempty
      have hfull1 : (st.cleanup now).size = st.maxEntries := le_antisymm h1size h2
      have hne : (st.cleanup now).entries ≠ [] := by
        intro hnil
        have : (st.cleanup now).size = 0 := by simp [RateLimitStore.size, hnil]
        omega
      obtain ⟨p0, tl, hcons⟩ := List.exists_cons_of_ne_nil hne
      obtain ⟨k0, r0⟩ := p0
      have hk0 : k0 ≠ "" := h1keys (k0, r0) (by rw [hcons]; exact List.mem_cons_self _ _)
      rw [hcons]
      simp only [List.head?_cons, if_pos hk0]
      constructor
      · -- capacity: delete drops the head, set adds back at most one
        have hdel : (jsMapDelete ((k0, r0) :: tl) k0).length ≤ tl.length := by
          simp only [jsMapDelete, List.filter_cons, ne_eq, decide_not]
          simp only [decide_True, Bool.not_true, Bool.false_eq_true, if_false]
          exact List.length_filter_le _ _
        have hlen : ((st.cleanup now).entries).length = st.maxEntries := hfull1
        have htl : tl.length = st.maxEntries - 1 := by
          rw [hcons] at hlen
          simp only [List.length_cons] at hlen
          omega
        calc (jsMapSet (jsMapDelete ((k0, r0) :: tl) k0) key r).length
            ≤ (jsMapDelete ((k0, r0) :: tl) k0).length + 1 := length_jsMapSet_le _ _ _
          _ ≤ tl.length + 1 := by omega
          _ ≤ st.maxEntries := by omega
      · intro p hp
        rcases mem_jsMapSet _ _ _ _ hp with h' | h'
        · rw [h']; exact hkey
        · exact h1keys p (hcons ▸ mem_jsMapDelete _ _ _ h')
    case isFalse h2 =>
      rw [cleanup_maxEntries] at h2
      constructor
      · calc (jsMapSet (st.cleanup now).entries key r).length
            ≤ (st.cleanup now).size + 1 := length_jsMapSet_le _ _ _
          _ ≤ st.maxEntries := by
              have := lt_of_not_le (fun hle => h2 hle)
              omega
      · intro p hp
        rcases mem_jsMapSet _ _ _ _ hp with h' | h'
        · rw [h']; exact hkey
        · exact h1keys p h'
  case isFalse hc =>
    push_neg at hc
    constructor
    · by_cases hhas : st.hasKey key
      · have : (jsMapSet st.entries key r).length = st.entries.length :=
          length_jsMapSet_of_mem _ _ _ hhas
        simpa [RateLimitStore.size, this] using hsize
      · have hlt : st.size < st.maxEntries := by
          rcases lt_or_le st.size st.maxEntries with h' | h'
          · exact h'
          · exact absurd (hc h') hhas
        calc (jsMapSet st.entries key r).length
            ≤ st.entries.length + 1 := length_jsMapSet_le _ _ _
          _ ≤ st.maxEntries := hlt
    · intro p hp
      rcases mem_jsMapSet _ _ _ _ hp with h' | h'
      · rw [h']; exact hkey
      · exact hkeys p h'

theorem get_fst_maxEntries (st : RateLimitStore) (key : String) (now : Nat) :
    (st.get key now).1.maxEntries = st.maxEntries := by
  unfold RateLimitStore.get
  split <;> first | rfl | (split <;> rfl)

theorem goodStore_get (st : RateLimitStore) (key : String) (now : Nat)
    (h : GoodStore st) : GoodStore (st.get key now).1 := by
  obtain ⟨hsize, hkeys⟩ := h
  unfold GoodStore RateLimitStore.get
  split
  · split
    · refine ⟨?_, ?_⟩
      · exact le_trans (List.length_filter_le _ _) hsize
      · exact fun p hp => hkeys p (mem_jsMapDelete _ _ _ hp)
    · exact ⟨hsize, hkeys⟩
  · exact ⟨hsize, hkeys⟩

theorem increment_fst_maxEntries (st : RateLimitStore) (key : String) (window now : Nat) :
    (st.increment key window now).1.maxEntries = st.maxEntries := by
  unfold RateLimitStore.increment
  dsimp only
  split
  · split <;> rw [set_maxEntries, get_fst_maxEntries]
  · rw [set_maxEntries, get_fst_maxEntries]

theorem goodStore_increment (st : RateLimitStore) (key : String) (window now : Nat)
    (hkey : key ≠ "") (hmax : 1 ≤ st.maxEntries) (h : GoodStore st) :
    GoodStore (st.increment key window now).1 := by
  have hget := goodStore_get st key now h
  have hgmax : (st.get key now).1.maxEntries = st.maxEntries := get_fst_maxEntries st key now
  unfold RateLimitStore.increment
  dsimp only
  split
  · split
    · exact goodStore_set _ _ _ _ hkey (hgmax ▸ hmax) hget
    · exact goodStore_set _ _ _ _ hkey (hgmax ▸ hmax) hget
  · exact goodStore_set _ _ _ _ hkey (hgmax ▸ hmax) hget

theorem applyOp_maxEntries (st : RateLimitStore) (op : StoreOp) :
    (applyOp st op).maxEntries = st.maxEntries := by
  cases op with
  | setOp k r n => exact set_maxEntries st k r n
  | incrOp k w n => exact increment_fst_maxEntries st k w n

theorem goodStore_applyOp (st : RateLimitStore) (op : StoreOp)
    (hkey : op.key ≠ "") (hmax : 1 ≤ st.maxEntries) (h : GoodStore st) :
    GoodStore (applyOp st op) := by
  cases op with
  | setOp k r n => exact goodStore_set st k r n hkey hmax h
  | incrOp k w n => exact goodStore_increment st k w n hkey hmax h

theorem goodStore_applyOps (ops : List StoreOp) :
    ∀ st : RateLimitStore, (∀ op ∈ ops, op.key ≠ "") → 1 ≤ st.maxEntries →
      GoodStore st → GoodStore (applyOps st ops) := by
  induction ops with
  | nil => intro st _ _ h; exact h
  | cons op ops ih =>
    intro st hkeys hmax h
    have h1 := goodStore_applyOp st op (hkeys op (List.mem_cons_self _ _)) hmax h
    have hmax1 : 1 ≤ (applyOp st op).maxEntries := by rw [applyOp_maxEntries]; exact hmax
    exact ih (applyOp st op) (fun o ho => hkeys o (List.mem_cons_of_mem _ ho)) hmax1 h1

theorem reset_maxEntries (st : RateLimitStore) (key : String) :
    (st.reset key).maxEntries = st.maxEntries := rfl

theorem goodStore_reset (st : RateLimitStore) (key : String) (h : GoodStore st) :
    GoodStore (st.reset key) := by
  obtain ⟨hsize, hkeys⟩ := h
  refine ⟨le_trans (List.length_filter_le _ _) hsize,
    fun p hp => hkeys p (mem_jsMapDelete _ _ _ hp)⟩

theorem evictLRU_base_maxEntries (m : MemoryEfficientStore) :
    m.evictLRU.base.maxEntries = m.base.maxEntries := by
  unfold MemoryEfficientStore.evictLRU
  split
  · split <;> rfl
  · rfl

theorem goodMES_evictLRU (m : MemoryEfficientStore) (h : GoodMES m) :
    GoodMES m.evictLRU := by
  unfold GoodMES MemoryEfficientStore.evictLRU
  split
  · split
    · exact goodStore_reset _ _ h
    · exact h
  · exact h

theorem mesSet_base_maxEntries (m : MemoryEfficientStore) (key : String)
    (r : RateLimitRecord) (now : Nat) :
    (m.set key r now).base.maxEntries = m.base.maxEntries := by
  unfold MemoryEfficientStore.set
  dsimp only
  split
  · rw [set_maxEntries, evictLRU_base_maxEntries]
  · rw [set_maxEntries]

theorem goodMES_set (m : MemoryEfficientStore) (key : String) (r : RateLimitRecord)
    (now : Nat) (hkey : key ≠ "") (hmax : 1 ≤ m.base.maxEntries) (h : GoodMES m) :
    GoodMES (m.set key r now) := by
  unfold GoodMES MemoryEfficientStore.set
  dsimp only
  split
  · exact goodStore_set _ _ _ _ hkey (by rw [evictLRU_base_maxEntries]; exact hmax)
      (goodMES_evictLRU m h)
  · exact goodStore_set _ _ _ _ hkey hmax h

theorem mesGet_fst_base_maxEntries (m : MemoryEfficientStore) (key : String) (now : Nat) :
    (m.get key now).1.base.maxEntries = m.base.maxEntries := by
  unfold MemoryEfficientStore.get
  dsimp only
  split <;> rw [get_fst_maxEntries]

theorem goodMES_get (m : MemoryEfficientStore) (key : String) (now : Nat)
    (h : GoodMES m) : GoodMES (m.get key now).1 := by
  unfold GoodMES MemoryEfficientStore.get
  dsimp only
  split <;> exact goodStore_get _ _ _ h

theorem mesIncrement_fst_base_maxEntries (m : MemoryEfficientStore) (key : String)
    (window now : Nat) :
    (m.increment key window now).1.base.maxEntries = m.base.maxEntries := by
  unfold MemoryEfficientStore.increment
  dsimp only
  split
  · split <;> rw [mesSet_base_maxEntries, mesGet_fst_base_maxEntries]
  · rw [mesSet_base_maxEntries, mesGet_fst_base_maxEntries]

theorem goodMES_increment (m : MemoryEfficientStore) (key : String) (window now : Nat)
    (hkey : key ≠ "") (hmax : 1 ≤ m.base.maxEntries) (h : GoodMES m) :
    GoodMES (m.increment key window now).1 := by
  have hget := goodMES_get m key now h
  have hgmax := mesGet_fst_base_maxEntries m key now
  unfold MemoryEfficientStore.increment
  dsimp only
  split
  · split
    · exact goodMES_set _ _ _ _ hkey (hgmax ▸ hmax) hget
    · exact goodMES_set _ _ _ _ hkey (hgmax ▸ hmax) hget
  · exact goodMES_set _ _ _ _ hkey (hgmax ▸ hmax) hget

theorem applyOpMES_base_maxEntries (m : MemoryEfficientStore) (op : StoreOp) :
    (applyOpMES m op).base.maxEntries = m.base.maxEntries := by
  cases op with
  | setOp k r n => exact mesSet_base_maxEntries m k r n
  | incrOp k w n => exact mesIncrement_fst_base_maxEntries m k w n

theorem goodMES_applyOp (m : MemoryEfficientStore) (op : StoreOp)
    (hkey : op.key ≠ "") (hmax : 1 ≤ m.base.maxEntries) (h : GoodMES m) :
    GoodMES (applyOpMES m op) := by
  cases op with
  | setOp k r n => exact goodMES_set m k r n hkey hmax h
  | incrOp k w n => exact goodMES_increment m k w n hkey hmax h

theorem goodMES_applyOps (ops : List StoreOp) :
    ∀ m : MemoryEfficientStore, (∀ op ∈ ops, op.key ≠ "") → 1 ≤ m.base.maxEntries →
      GoodMES m → GoodMES (applyOpsMES m ops) := by
  induction ops with
  | nil => intro m _ _ h; exact h
  | cons op ops ih =>
    intro m hkeys hmax h
    have h1 := goodMES_applyOp m op (hkeys op (List.mem_cons_self _ _)) hmax h
    have hmax1 : 1 ≤ (applyOpMES m op).base.maxEntries := by
      rw [applyOpMES_base_maxEntries]; exact hmax
    exact ih (applyOpMES m op) (fun o ho => hkeys o (List.mem_cons_of_mem _ ho)) hmax1 h1

theorem applyOps_maxEntries (ops : List StoreOp) :
    ∀ st : RateLimitStore, (applyOps st ops).maxEntries = st.maxEntries := by
  induction ops with
  | nil => intro st; rfl
  | cons op ops ih =>
    intro st
    calc (applyOps (applyOp st op) ops).maxEntries
        = (applyOp st op).maxEntries := ih (applyOp st op)
      _ = st.maxEntries := applyOp_maxEntries st op

theorem applyOpsMES_base_maxEntries (ops : List StoreOp) :
    ∀ m : MemoryEfficientStore, (applyOpsMES m ops).base.maxEntries = m.base.maxEntries := by
  induction ops with
  | nil => intro m; rfl
  | cons op ops ih =>
    intro m
    calc (applyOpsMES (applyOpMES m op) ops).base.maxEntries
        = (applyOpMES m op).base.maxEntries := ih (applyOpMES m op)
      _ = m.base.maxEntries := applyOpMES_base_maxEntries m op

/-! ## Claim C7 -/

/-- C7 (amended): starting from an empty store with `maxEntries ≥ 1`, any
sequence of `set`/`increment` calls whose keys are all nonempty leaves
`size() ≤ maxEntries`, for both the simple `RateLimitStore` and the LRU
`MemoryEfficientStore`.  (The nonempty-key proviso is forced by the JS
truthiness guard `if (firstKey)` in `set`: an empty-string oldest key is never
evicted, and the bound can then be exceeded — see the counterexample.) -/
theorem c7_capacity_bound (maxE maxE2 : Nat) (ops ops2 : List StoreOp)
    (hmax : 1 ≤ maxE) (hmax2 : 1 ≤ maxE2)
    (hkeys : ∀ op ∈ ops, op.key ≠ "") (hkeys2 : ∀ op ∈ ops2, op.key ≠ "") :
    (applyOps ⟨[], maxE⟩ ops).size ≤ maxE
    ∧ (applyOpsMES ⟨⟨[], maxE2⟩, [], 0⟩ ops2).base.size ≤ maxE2 := by
  constructor
  · have h := goodStore_applyOps ops ⟨[], maxE⟩ hkeys hmax
      ⟨by simp [RateLimitStore.size], by simp⟩
    have hm := applyOps_maxEntries ops ⟨[], maxE⟩
    exact le_of_le_of_eq h.1 hm
  · have h := goodMES_applyOps ops2 ⟨⟨[], maxE2⟩, [], 0⟩ hkeys2 hmax2
      ⟨by simp [RateLimitStore.size], by simp⟩
    have hm := applyOpsMES_base_maxEntries ops2 ⟨⟨[], maxE2⟩, [], 0⟩
    exact le_of_le_of_eq h.1 hm

/-- C7 witness: three inserts of distinct nonempty keys into a
capacity-2 store stay within the bound, in both store variants. -/
theorem c7_capacity_bound_witness :
    (applyOps ⟨[], 2⟩ [.setOp "a" ⟨1, 100, 0⟩ 0, .setOp "b" ⟨1, 100, 0⟩ 0,
        .setOp "c" ⟨1, 100, 0⟩ 0]).size ≤ 2
    ∧ (applyOpsMES ⟨⟨[], 2⟩, [], 0⟩ [.setOp "a" ⟨1, 100, 0⟩ 0, .setOp "b" ⟨1, 100, 0⟩ 0,
        .setOp "c" ⟨1, 100, 0⟩ 0]).base.size ≤ 2 :=
  c7_capacity_bound 2 2 _ _ (by decide) (by decide) (by decide) (by decide)

/-- C7 counterexample: with `maxEntries = 1`, inserting the empty-string key
and then a second distinct key (both records unexpired) leaves `size() = 2 >
maxEntries = 1`: the `if (firstKey)` guard skips eviction of the empty-string
oldest key, so the claimed bound fails as stated. -/
theorem c7_counterexample :
    (applyOps ⟨[], 1⟩ [.setOp "" ⟨1, 100, 0⟩ 0, .setOp "a" ⟨1, 100, 0⟩ 0]).size = 2
    ∧ ¬((applyOps ⟨[], 1⟩ [.setOp "" ⟨1, 100, 0⟩ 0, .setOp "a" ⟨1, 100, 0⟩ 0]).size
        ≤ (⟨[], 1⟩ : RateLimitStore).maxEntries) := by
  constructor
  · rfl
  · decide

/-! ## Claim C5 -/

/-- A record returned by `get` was looked up and not expired. -/
theorem get_snd_some (st : RateLimitStore) (key : String) (now : Nat)
    (r : RateLimitRecord) (h : (st.get key now).2 = some r) :
    jsMapLookup st.entries key = some r ∧ ¬now > r.resetTime := by
  unfold RateLimitStore.get at h
  split at h
  case h_1 rec heq =>
    split at h
    · exact absurd h (by simp)
    · cases h
      exact ⟨heq, by assumption⟩
  case h_2 => exact absurd h (by simp)

/-- C5 (amended): expiry is *strict* in `get` and *non-strict* in `increment`:
for a stored record, `get` deletes it and reports absent exactly when
`now > resetTime` (at `now = resetTime` the record is still returned), while
`increment` starts a fresh `{count: 1, resetTime: now + window}` record
whenever `now ≥ resetTime`, including at the exact boundary. -/
theorem c5_lazy_expiry (st : RateLimitStore) (key : String) (r : RateLimitRecord)
    (now w : Nat) (h : jsMapLookup st.entries key = some r) :
    (r.resetTime < now →
      (st.get key now).2 = none
      ∧ jsMapLookup (st.get key now).1.entries key = none)
    ∧ (now ≤ r.resetTime → st.get key now = (st, some r))
    ∧ (r.resetTime ≤ now → (st.increment key w now).2 = ⟨1, now + w, now⟩) := by
  refine ⟨fun hlt => ?_, fun hle => ?_, fun hle => ?_⟩
  · unfold RateLimitStore.get
    rw [h]
    dsimp only
    rw [if_pos (show now > r.resetTime by omega)]
    exact ⟨rfl, jsMapLookup_delete_self _ _⟩
  · unfold RateLimitStore.get
    rw [h]
    dsimp only
    rw [if_neg (show ¬now > r.resetTime by omega)]
  · unfold RateLimitStore.increment
    dsimp only
    rcases hg : (st.get key now).2 with _ | r'
    · rfl
    · obtain ⟨hl, hnx⟩ := get_snd_some st key now r' hg
      rw [hl] at h
      cases h
      dsimp only
      rw [if_neg (show ¬now < r.resetTime by omega)]

/-- C5 witness: at `resetTime = 5`, `get` at `now = 6` deletes and reports
absent, `get` at `now = 4` returns the record, and `increment` at the exact
boundary `now = 5` starts a fresh window. -/
theorem c5_lazy_expiry_witness :
    jsMapLookup (⟨[("k", ⟨3, 5, 0⟩)], 10⟩ : RateLimitStore).entries "k" = some ⟨3, 5, 0⟩
    ∧ (((⟨[("k", ⟨3, 5, 0⟩)], 10⟩ : RateLimitStore).get "k" 6).2 = none
      ∧ jsMapLookup ((⟨[("k", ⟨3, 5, 0⟩)], 10⟩ : RateLimitStore).get "k" 6).1.entries "k"
          = none)
    ∧ ((⟨[("k", ⟨3, 5, 0⟩)], 10⟩ : RateLimitStore).get "k" 4
        = (⟨[("k", ⟨3, 5, 0⟩)], 10⟩, some ⟨3, 5, 0⟩))
    ∧ ((⟨[("k", ⟨3, 5, 0⟩)], 10⟩ : RateLimitStore).increment "k" 7 5).2 = ⟨1, 5 + 7, 5⟩ := by
  have h6 := c5_lazy_expiry ⟨[("k", ⟨3, 5, 0⟩)], 10⟩ "k" ⟨3, 5, 0⟩ 6 7 (by decide)
  have h4 := c5_lazy_expiry ⟨[("k", ⟨3, 5, 0⟩)], 10⟩ "k" ⟨3, 5, 0⟩ 4 7 (by decide)
  have h5 := c5_lazy_expiry ⟨[("k", ⟨3, 5, 0⟩)], 10⟩ "k" ⟨3, 5, 0⟩ 5 7 (by decide)
  exact ⟨by decide, h6.1 (by decide), h4.2.1 (by decide), h5.2.2 (by decide)⟩

/-- C5 counterexample: at the exact boundary `now = resetTime` (here both `5`),
`get` still returns the record — the claim's "treated as absent once
`now ≥ resetTime`, including at the exact boundary" fails for `get`, which
tests `now > resetTime` strictly. -/
theorem c5_counterexample :
    ((⟨[("k", ⟨3, 5, 0⟩)], 10⟩ : RateLimitStore).get "k" 5).2 = some ⟨3, 5, 0⟩
    ∧ ((⟨[("k", ⟨3, 5, 0⟩)], 10⟩ : RateLimitStore).get "k" 5).2 ≠ none := by
  decide

/-! ## Claim C10 -/

/-- The record `increment` returns: count at least 1, and a reset time
strictly in the future whenever the window is positive. -/
theorem increment_snd_bounds (st : RateLimitStore) (key : String) (w now : Nat)
    (hw : 0 < w) :
    1 ≤ (st.increment key w now).2.count ∧ now < (st.increment key w now).2.resetTime := by
  unfold RateLimitStore.increment
  dsimp only
  rcases hg : (st.get key now).2 with _ | r
  · dsimp only
    exact ⟨le_refl 1, by omega⟩
  · obtain ⟨_, hnx⟩ := get_snd_some st key now r hg
    dsimp only
    by_cases hlt : now < r.resetTime
    · rw [if_pos hlt]
      dsimp only
      exact ⟨by omega, hlt⟩
    · rw [if_neg hlt]
      dsimp only
      exact ⟨le_refl 1, by omega⟩

/-- C10: for every store state, key and positive window, the record returned
by `increment` has `count ≥ 1` and `resetTime > now`; consequently
`checkRateLimit` always reports `retryAfter ≥ 0` and a `resetTime` strictly
after the `now` of the call. -/
theorem c10_increment_bounds (st : RateLimitStore) (key : String) (w now : Nat)
    (config : RateLimitConfig) (hw : 0 < w) (hcw : 0 < config.window) :
    (1 ≤ (st.increment key w now).2.count
      ∧ now < (st.increment key w now).2.resetTime)
    ∧ (0 ≤ (checkRateLimit key config st now).2.retryAfter
      ∧ now < (checkRateLimit key config st now).2.resetTime) := by
  refine ⟨increment_snd_bounds st key w now hw, le_max_left 0 _, ?_⟩
  exact (increment_snd_bounds st key config.window now hcw).2

/-- C10 witness at a concrete store, key, window and config. -/
theorem c10_increment_bounds_witness :
    (1 ≤ ((⟨[], 10⟩ : RateLimitStore).increment "k" 5 7).2.count
      ∧ 7 < ((⟨[], 10⟩ : RateLimitStore).increment "k" 5 7).2.resetTime)
    ∧ (0 ≤ (checkRateLimit "k" ⟨3, 5, none, none, none⟩ ⟨[], 10⟩ 7).2.retryAfter
      ∧ 7 < (checkRateLimit "k" ⟨3, 5, none, none, none⟩ ⟨[], 10⟩ 7).2.resetTime) :=
  c10_increment_bounds ⟨[], 10⟩ "k" 5 7 ⟨3, 5, none, none, none⟩ (by decide) (by decide)

/-! ## Claim C3 -/

/-- The `checkRateLimit` on a store whose record for the key is live bumps that
record in place. -/
theorem checkRateLimit_lookup_bump (key : String) (config : RateLimitConfig)
    (st : RateLimitStore) (now : Nat) (r0 : RateLimitRecord)
    (h : jsMapLookup st.entries key = some r0) (hlt : now < r0.resetTime) :
    jsMapLookup (checkRateLimit key config st now).1.entries key
      = some ⟨r0.count + 1, r0.resetTime, r0.firstRequest⟩ := by
  have hget : st.get key now = (st, some r0) := by
    unfold RateLimitStore.get
    rw [h]
    dsimp only
    rw [if_neg (show ¬now > r0.resetTime by omega)]
  unfold checkRateLimit RateLimitStore.increment
  rw [hget]
  dsimp only
  rw [if_pos hlt]
  dsimp only
  unfold RateLimitStore.set
  rw [if_neg (by simp [RateLimitStore.hasKey, h])]
  exact jsMapLookup_jsMapSet_self _ _ _

/-- C3 (amended): `BurstProtection.check` evaluates **both** limits
unconditionally — the sustained store is always the post-`checkRateLimit`
store (in particular a live sustained record is incremented even when the
burst check denies); the returned result is the burst result on a burst
denial, otherwise exactly the sustained result (when the burst check allows,
`allowed = burst && sustained` collapses to the sustained flag), and its
`allowed` flag always equals
`burstResult.allowed && sustainedResult.allowed`. -/
theorem c3_burst_check (bp : BurstProtection) (key : String)
    (bc sc : RateLimitConfig) (now : Nat) :
    (bp.check key bc sc now).1.sustainedStore
        = (checkRateLimit ("sustained:" ++ key) sc bp.sustainedStore now).1
    ∧ (bp.check key bc sc now).2.allowed
        = ((checkRateLimit ("burst:" ++ key) bc bp.burstStore now).2.allowed
            && (checkRateLimit ("sustained:" ++ key) sc bp.sustainedStore now).2.allowed)
    ∧ ((checkRateLimit ("burst:" ++ key) bc bp.burstStore now).2.allowed = false →
        (bp.check key bc sc now).2
          = (checkRateLimit ("burst:" ++ key) bc bp.burstStore now).2)
    ∧ ((checkRateLimit ("burst:" ++ key) bc bp.burstStore now).2.allowed = true →
        (bp.check key bc sc now).2
          = (checkRateLimit ("sustained:" ++ key) sc bp.sustainedStore now).2)
    ∧ (∀ r0, jsMapLookup bp.sustainedStore.entries ("sustained:" ++ key) = some r0 →
        now < r0.resetTime →
        jsMapLookup (bp.check key bc sc now).1.sustainedStore.entries ("sustained:" ++ key)
          = some ⟨r0.count + 1, r0.resetTime, r0.firstRequest⟩) := by
  have hstore : (bp.check key bc sc now).1.sustainedStore
      = (checkRateLimit ("sustained:" ++ key) sc bp.sustainedStore now).1 := by
    unfold BurstProtection.check
    dsimp only
    split <;> rfl
  refine ⟨hstore, ?_, ?_, ?_, ?_⟩
  · unfold BurstProtection.check
    dsimp only
    rcases hb : (checkRateLimit ("burst:" ++ key) bc bp.burstStore now).2.allowed with _ | _
    · rw [if_pos (by simp [hb])]
      simp [hb]
    · rw [if_neg (by simp [hb])]
  · intro hb
    unfold BurstProtection.check
    dsimp only
    rw [if_pos (by simp [hb])]
  · intro hb
    unfold BurstProtection.check
    dsimp only
    rw [if_neg (by simp [hb])]
    rw [hb, Bool.true_and]
  · intro r0 h0 hlt
    rw [hstore]
    exact checkRateLimit_lookup_bump _ sc _ now r0 h0 hlt

/-- C3 amended-claim witness at a concrete state: a denied burst check (limit
0) still increments the live sustained record, and an allowed burst check
(limit 2) returns exactly the sustained result. -/
theorem c3_burst_check_witness :
    jsMapLookup (⟨[("sustained:k", ⟨1, 1000, 0⟩)], 10⟩ : RateLimitStore).entries
        "sustained:k" = some ⟨1, 1000, 0⟩
    ∧ jsMapLookup ((⟨⟨[], 10⟩, ⟨[("sustained:k", ⟨1, 1000, 0⟩)], 10⟩⟩ :
          BurstProtection).check "k" ⟨0, 10, none, none, none⟩
          ⟨5, 1000, none, none, none⟩ 3).1.sustainedStore.entries "sustained:k"
        = some ⟨2, 1000, 0⟩
    ∧ ((⟨⟨[], 10⟩, ⟨[], 10⟩⟩ : BurstProtection).check "k" ⟨2, 10, none, none, none⟩
          ⟨5, 1000, none, none, none⟩ 3).2
        = (checkRateLimit "sustained:k" ⟨5, 1000, none, none, none⟩ ⟨[], 10⟩ 3).2 := by
  have h := c3_burst_check ⟨⟨[], 10⟩, ⟨[("sustained:k", ⟨1, 1000, 0⟩)], 10⟩⟩ "k"
    ⟨0, 10, none, none, none⟩ ⟨5, 1000, none, none, none⟩ 3
  have h2 := c3_burst_check ⟨⟨[], 10⟩, ⟨[], 10⟩⟩ "k"
    ⟨2, 10, none, none, none⟩ ⟨5, 1000, none, none, none⟩ 3
  exact ⟨by decide, h.2.2.2.2 ⟨1, 1000, 0⟩ (by decide) (by decide),
    h2.2.2.2.1 (by decide)⟩

/-- C3 counterexample: with a burst limit of 0 every burst check denies, yet
after one `check` call on fresh stores the sustained store holds a count-1
record for `sustained:k` — the sustained limit *was* evaluated and its store
changed, contradicting the claim that a burst denial leaves the sustained
store untouched. -/
theorem c3_counterexample :
    ((⟨⟨[], 10⟩, ⟨[], 10⟩⟩ : BurstProtection).check "k" ⟨0, 10, none, none, none⟩
        ⟨5, 1000, none, none, none⟩ 0).2.allowed = false
    ∧ jsMapLookup ((⟨⟨[], 10⟩, ⟨[], 10⟩⟩ : BurstProtection).check "k"
        ⟨0, 10, none, none, none⟩ ⟨5, 1000, none, none, none⟩ 0).1.sustainedStore.entries
        "sustained:k" = some ⟨1, 1000, 0⟩
    ∧ ((⟨⟨[], 10⟩, ⟨[], 10⟩⟩ : BurstProtection).check "k" ⟨0, 10, none, none, none⟩
        ⟨5, 1000, none, none, none⟩ 0).1.sustainedStore
        ≠ (⟨⟨[], 10⟩, ⟨[], 10⟩⟩ : BurstProtection).sustainedStore := by
  decide

/-! ## Claim C1 -/

/-- One `checkRateLimit` call on a store holding exactly the key's record,
inside the live window: the count is bumped in place and the `allowed` flag
compares the new count against `requests` (no burst limit). -/
theorem checkRateLimit_singleton_step (N : Int) (W : Nat) (key : String)
    (maxE t0 j t : Nat) (ht : t < t0 + W) :
    checkRateLimit key ⟨N, W, none, none, none⟩ ⟨[(key, ⟨j, t0 + W, t0⟩)], maxE⟩ t
      = (⟨[(key, ⟨j + 1, t0 + W, t0⟩)], maxE⟩,
         ⟨decide (((j + 1 : Nat) : Int) ≤ N), N, max 0 (N - ((j + 1 : Nat) : Int)),
          t0 + W, max 0 (ceilDiv1000 (((t0 + W : Nat) : Int) - (t : Int)))⟩) := by
  have hget : (⟨[(key, ⟨j, t0 + W, t0⟩)], maxE⟩ : RateLimitStore).get key t
      = (⟨[(key, ⟨j, t0 + W, t0⟩)], maxE⟩, some ⟨j, t0 + W, t0⟩) := by
    unfold RateLimitStore.get
    dsimp only [jsMapLookup]
    rw [if_pos rfl]
    dsimp only
    rw [if_neg (show ¬t > t0 + W by omega)]
  unfold checkRateLimit RateLimitStore.increment
  rw [hget]
  dsimp only
  rw [if_pos (show t < t0 + W from ht)]
  unfold RateLimitStore.set
  rw [if_neg (by simp [RateLimitStore.hasKey, jsMapLookup])]
  dsimp only [jsMapSet]
  rw [if_pos rfl]
  simp [effectiveLimit]

/-- The first `checkRateLimit` call on an empty store (capacity ≥ 1): a fresh
count-1 record with `resetTime = now + window`. -/
theorem checkRateLimit_empty (N : Int) (W : Nat) (key : String) (maxE t0 : Nat)
    (hmax : 1 ≤ maxE) :
    checkRateLimit key ⟨N, W, none, none, none⟩ ⟨[], maxE⟩ t0
      = (⟨[(key, ⟨1, t0 + W, t0⟩)], maxE⟩,
         ⟨decide ((1 : Int) ≤ N), N, max 0 (N - 1), t0 + W,
          max 0 (ceilDiv1000 (((t0 + W : Nat) : Int) - (t0 : Int)))⟩) := by
  unfold checkRateLimit RateLimitStore.increment RateLimitStore.get
  dsimp only [jsMapLookup]
  unfold RateLimitStore.set
  rw [if_neg (by simp [RateLimitStore.size]; omega)]
  dsimp only [jsMapSet]
  simp [effectiveLimit]

/-- Iterating `checkRateLimit` from a singleton live record: each call bumps
the count, and the i-th collected result is allowed iff the count it saw is
within `requests`. -/
theorem runCheck_loop (N : Int) (W : Nat) (key : String) (maxE t0 : Nat) :
    ∀ (ts : List Nat) (j : Nat), (∀ t ∈ ts, t < t0 + W) →
      (runCheck key ⟨N, W, none, none, none⟩ ⟨[(key, ⟨j, t0 + W, t0⟩)], maxE⟩ ts).1
        = ⟨[(key, ⟨j + ts.length, t0 + W, t0⟩)], maxE⟩
      ∧ ∀ i, i < ts.length →
        ((runCheck key ⟨N, W, none, none, none⟩
            ⟨[(key, ⟨j, t0 + W, t0⟩)], maxE⟩ ts).2.getD i ⟨false, 0, 0, 0, 0⟩).allowed
          = decide (((j + i + 1 : Nat) : Int) ≤ N) := by
  intro ts
  induction ts with
  | nil =>
    intro j _
    exact ⟨rfl, fun i hi => absurd hi (by simp)⟩
  | cons t ts ih =>
    intro j hts
    have hstep := checkRateLimit_singleton_step N W key maxE t0 j t
      (hts t (List.mem_cons_self _ _))
    have hrest := ih (j + 1) (fun t' ht' => hts t' (List.mem_cons_of_mem _ ht'))
    unfold runCheck
    rw [hstep]
    dsimp only
    constructor
    · rw [hrest.1]
      have : j + 1 + ts.length = j + (ts.length + 1) := by omega
      rw [this]
      rfl
    · intro i hi
      cases i with
      | zero => simp
      | succ i =>
        rw [List.getD_cons_succ]
        have := hrest.2 i (by simpa using hi)
        rw [this]
        refine decide_eq_decide.mpr ?_
        constructor <;> intro h' <;> (push_cast at h' ⊢; omega)

/-- C1: with `requests = N`, `window = W`, no burst limit, and all call times
inside the window opened by the first call, the k-th `checkRateLimit` call for
a fixed key (1-indexed: index `k` below is 0-based) reports
`allowed = (k ≤ N)`, and the stored counter afterwards equals the total number
of calls — every call, allowed or denied, consumed quota. -/
theorem c1_fixed_window (N : Int) (W : Nat) (key : String) (maxE t0 : Nat)
    (ts : List Nat) (hW : 0 < W) (hmax : 1 ≤ maxE)
    (hts : ∀ t ∈ ts, t < t0 + W) (k : Nat) (hk : k < ts.length + 1) :
    ((runCheck key ⟨N, W, none, none, none⟩ ⟨[], maxE⟩ (t0 :: ts)).2.getD k
        ⟨false, 0, 0, 0, 0⟩).allowed = decide (((k + 1 : Nat) : Int) ≤ N)
    ∧ jsMapLookup (runCheck key ⟨N, W, none, none, none⟩ ⟨[], maxE⟩ (t0 :: ts)).1.entries
        key = some ⟨ts.length + 1, t0 + W, t0⟩ := by
  have hfirst := checkRateLimit_empty N W key maxE t0 hmax
  have hrest := runCheck_loop N W key maxE t0 ts 1 hts
  constructor
  · show ((runCheck key ⟨N, W, none, none, none⟩ ⟨[], maxE⟩ (t0 :: ts)).2.getD k
        ⟨false, 0, 0, 0, 0⟩).allowed = decide (((k + 1 : Nat) : Int) ≤ N)
    unfold runCheck
    rw [hfirst]
    dsimp only
    cases k with
    | zero =>
      simp only [List.getD_cons_zero]
      refine Eq.trans rfl (decide_eq_decide.mpr ?_)
      constructor <;> intro h' <;> (push_cast at h' ⊢; omega)
    | succ k =>
      rw [List.getD_cons_succ]
      have := hrest.2 k (by omega)
      rw [this]
      refine decide_eq_decide.mpr ?_
      constructor <;> intro h' <;> (push_cast at h' ⊢; omega)
  · unfold runCheck
    rw [hfirst]
    dsimp only
    rw [hrest.1]
    dsimp only [jsMapLookup]
    rw [if_pos rfl]
    have : 1 + ts.length = ts.length + 1 := by omega
    rw [this]

/-- C1 witness: `N = 2`, `W = 1000`, three calls at times 0, 1, 2 — the third
call is denied (`3 ≤ 2` is false) and the final counter is 3. -/
theorem c1_fixed_window_witness :
    ((runCheck "k" ⟨2, 1000, none, none, none⟩ ⟨[], 10000⟩ [0, 1, 2]).2.getD 2
        ⟨false, 0, 0, 0, 0⟩).allowed = decide (((2 + 1 : Nat) : Int) ≤ 2)
    ∧ jsMapLookup (runCheck "k" ⟨2, 1000, none, none, none⟩ ⟨[], 10000⟩ [0, 1, 2]).1.entries
        "k" = some ⟨2 + 1, 0 + 1000, 0⟩ :=
  c1_fixed_window 2 1000 "k" 10000 0 [1, 2] (by decide) (by decide) (by decide) 2 (by decide)

/-! ## Claim C4 -/

/-- C4 (amended): when the matched table entry is method-keyed and has no
configuration for the request's method, `getEndpointConfig` does **not**
cascade to the `default` entry: the `|| matchedConfig` fallback reuses the
method-keyed object itself, whose scalar fields are all absent, so the
returned config is `{requests: NaN}` with no `window`, `burstLimit` or
`message`. -/
theorem c4_missing_method_no_cascade (table : List (String × ConfigEntry))
    (path method env : String) (m : MethodSpecificConfig)
    (henv : (getEnvironmentConfig env).enabled = true)
    (hmatch : resolveEntry table path = .byMethod m)
    (hmethod : methodGet m method = none) :
    getEndpointConfig table path method env = ⟨.nan, none, none, none, none⟩ := by
  unfold getEndpointConfig
  dsimp only
  rw [henv]
  rw [if_neg (by simp)]
  unfold resolveFinal
  rw [hmatch]
  unfold getMethodSpecificConfig
  dsimp only
  rw [hmethod]
  rfl

/-- C4 witness: `/api/incidents` has only `GET`/`POST` configs, so a `DELETE`
request in the enabled (production) environment resolves to the
`NaN`-requests residue. -/
theorem c4_missing_method_no_cascade_witness :
    (getEnvironmentConfig "production").enabled = true
    ∧ getEndpointConfig rateLimitConfigs "/api/incidents" "DELETE" "production"
        = ⟨.nan, none, none, none, none⟩ :=
  ⟨by decide, c4_missing_method_no_cascade rateLimitConfigs "/api/incidents" "DELETE"
    "production"
    ⟨some ⟨100, 600000, none, none, some "Too many incident requests. Please wait 10 minutes."⟩,
     some ⟨20, 600000, none, none, some "Too many incident submissions. Please wait 10 minutes."⟩,
     none, none, none⟩
    (by decide) (by decide) (by decide)⟩

/-- C4 counterexample: for `/api/incidents` with method `DELETE` in production
the returned config is the `NaN` residue of the matched method-keyed entry,
*not* the multiplier-adjusted `default` entry the claim requires. -/
theorem c4_counterexample :
    getEndpointConfig rateLimitConfigs "/api/incidents" "DELETE" "production"
      = ⟨.nan, none, none, none, none⟩
    ∧ getEndpointConfig rateLimitConfigs "/api/incidents" "DELETE" "production"
      ≠ ⟨.num (100 * 1), some 3600000, none, none,
          some "Rate limit exceeded. Please try again later."⟩ := by
  decide

/-! ## Claim C8 -/

/-- C8: when the environment's `enabled` flag is false, `getEndpointConfig`
returns the `requests = Infinity` sentinel for every path and method; when it
is true, the result is exactly the matched-and-method-resolved config with
`requests = floor(requests * multiplier)` and `window`, `burstLimit`,
`message` passed through unchanged. -/
theorem c8_environment_gate (table : List (String × ConfigEntry))
    (path method env : String) :
    ((getEnvironmentConfig env).enabled = false →
      (getEndpointConfig table path method env).requests = .inf)
    ∧ ((getEnvironmentConfig env).enabled = true →
      (getEndpointConfig table path method env).requests
          = jsFloorMul (resolveFinal table path method).requests
              (getEnvironmentConfig env).multiplier
        ∧ (getEndpointConfig table path method env).window
          = (resolveFinal table path method).window
        ∧ (getEndpointConfig table path method env).burstLimit
          = (resolveFinal table path method).burstLimit
        ∧ (getEndpointConfig table path method env).message
          = (resolveFinal table path method).message) := by
  constructor
  · intro henv
    unfold getEndpointConfig
    dsimp only
    rw [henv]
    rfl
  · intro henv
    unfold getEndpointConfig
    dsimp only
    rw [henv]
    rw [if_neg (by simp)]
    exact ⟨rfl, rfl, rfl, rfl⟩

/-- C8 witness: development (disabled) yields the `Infinity` sentinel;
production (enabled, multiplier 1) yields the logout policy with `requests`
scaled and the other fields passed through. -/
theorem c8_environment_gate_witness :
    ((getEnvironmentConfig "development").enabled = false
      ∧ (getEndpointConfig rateLimitConfigs "/api/auth/logout" "POST"
          "development").requests = .inf)
    ∧ ((getEnvironmentConfig "production").enabled = true
      ∧ (getEndpointConfig rateLimitConfigs "/api/auth/logout" "POST"
            "production").requests
          = jsFloorMul (resolveFinal rateLimitConfigs "/api/auth/logout" "POST").requests
              (getEnvironmentConfig "production").multiplier) := by
  have hdev := c8_environment_gate rateLimitConfigs "/api/auth/logout" "POST" "development"
  have hprod := c8_environment_gate rateLimitConfigs "/api/auth/logout" "POST" "production"
  exact ⟨⟨by decide, hdev.1 (by decide)⟩, ⟨by decide, (hprod.2 (by decide)).1⟩⟩

/-! ## Claim C9 -/

/-- C9 (amended): `overrideRateLimitConfig` throws exactly when
`requests ≤ 0`, `window ≤ 0`, or `burstLimit` is present, *nonzero* and
negative — a present `burstLimit` of `0` is falsy in the validator's
`config.burstLimit && ...` guard and is accepted.  On a throw the table is
returned unmodified; on success the config is installed under the path. -/
theorem c9_override_validation (table : List (String × ConfigEntry)) (path : String)
    (config : RateLimitConfig) :
    ((overrideRateLimitConfig table path config).error.isSome ↔
      (config.requests ≤ 0 ∨ config.window = 0
        ∨ ∃ b, config.burstLimit = some b ∧ b < 0))
    ∧ ((overrideRateLimitConfig table path config).error.isSome →
        (overrideRateLimitConfig table path config).newTable = table)
    ∧ ((overrideRateLimitConfig table path config).error = none →
        (overrideRateLimitConfig table path config).newTable
            = jsMapSet table path (.single config)
          ∧ jsMapLookup (overrideRateLimitConfig table path config).newTable path
            = some (.single config)) := by
  have hval : validateRateLimitConfig config = false ↔
      (config.requests ≤ 0 ∨ config.window = 0
        ∨ ∃ b, config.burstLimit = some b ∧ b < 0) := by
    unfold validateRateLimitConfig
    rcases config with ⟨req, win, burst, skip, msg⟩
    dsimp only
    by_cases h1 : req ≤ 0
    · rw [if_pos h1]
      constructor
      · intro _
        exact Or.inl h1
      · intro _
        rfl
    · rw [if_neg h1]
      by_cases h2 : win ≤ 0
      · rw [if_pos h2]
        constructor
        · intro _
          exact Or.inr (Or.inl (by omega))
        · intro _
          rfl
      · rw [if_neg h2]
        cases burst with
        | none =>
          constructor
          · intro h'
            exact absurd h' (by simp)
          · intro h'
            exfalso
            rcases h' with h' | h' | ⟨b', hb', _⟩
            · exact h1 h'
            · exact h2 (by omega)
            · exact Option.noConfusion hb'
        | some b =>
          dsimp only
          by_cases h3 : b ≠ 0 ∧ b ≤ 0
          · rw [if_pos h3]
            constructor
            · intro _
              exact Or.inr (Or.inr ⟨b, rfl, by omega⟩)
            · intro _
              rfl
          · rw [if_neg h3]
            constructor
            · intro h'
              exact absurd h' (by simp)
            · intro h'
              exfalso
              rcases h' with h' | h' | ⟨b', hb', hlt⟩
              · exact h1 h'
              · exact h2 (by omega)
              · cases hb'
                exact h3 ⟨by omega, by omega⟩
  unfold overrideRateLimitConfig
  by_cases hv : validateRateLimitConfig config
  · rw [if_pos hv]
    refine ⟨?_, ?_, ?_⟩
    · simp only [Option.isSome_none, Bool.false_eq_true, false_iff]
      intro hbad
      rw [← hval] at hbad
      rw [hv] at hbad
      exact absurd hbad (by simp)
    · intro h'
      exact absurd h' (by simp)
    · intro _
      exact ⟨rfl, jsMapLookup_jsMapSet_self _ _ _⟩
  · rw [if_neg hv]
    refine ⟨?_, ?_, ?_⟩
    · simp only [Option.isSome_some, true_iff]
      rw [← hval]
      exact Bool.eq_false_iff.mpr hv
    · intro _; rfl
    · intro h'
      exact absurd h' (by simp)

/-- C9 witness: a config with `requests = 0` is rejected and leaves the table
unchanged; a valid config is installed under its path. -/
theorem c9_override_validation_witness :
    ((overrideRateLimitConfig rateLimitConfigs "/x" ⟨0, 5, none, none, none⟩).error.isSome
      ∧ (overrideRateLimitConfig rateLimitConfigs "/x"
          ⟨0, 5, none, none, none⟩).newTable = rateLimitConfigs)
    ∧ jsMapLookup (overrideRateLimitConfig rateLimitConfigs "/x"
        ⟨7, 5, none, none, none⟩).newTable "/x" = some (.single ⟨7, 5, none, none, none⟩) := by
  have hbad := c9_override_validation rateLimitConfigs "/x" ⟨0, 5, none, none, none⟩
  have hgood := c9_override_validation rateLimitConfigs "/x" ⟨7, 5, none, none, none⟩
  refine ⟨⟨?_, ?_⟩, ?_⟩
  · exact hbad.1.mpr (Or.inl (by decide))
  · exact hbad.2.1 (hbad.1.mpr (Or.inl (by decide)))
  · exact (hgood.2.2 (by decide)).2

/-- C9 counterexample: `burstLimit: 0` is "present but not a positive number",
so the claim demands an error — but `0` is falsy, the validator accepts it,
no error is raised and the config is installed. -/
theorem c9_counterexample :
    (overrideRateLimitConfig rateLimitConfigs "/x" ⟨1, 1, some 0, none, none⟩).error = none
    ∧ jsMapLookup (overrideRateLimitConfig rateLimitConfigs "/x"
        ⟨1, 1, some 0, none, none⟩).newTable "/x" = some (.single ⟨1, 1, some 0, none, none⟩) := by
  decide

/-! ## Claim C2 -/

/-- The `normalizeIP` never throws on an input accepted by `validateIP`. -/
theorem normalizeIP_ok (ip : List Char) (h : validateIP ip = true) :
    ∃ v, normalizeIP ip = .ok v := by
  unfold normalizeIP
  rw [h]
  rw [if_neg (by simp)]
  split
  · exact ⟨_, rfl⟩
  · split
    · exact ⟨_, rfl⟩
    · exact ⟨_, rfl⟩

/-- An `x-forwarded-for` candidate is always validated. -/
theorem candidateXff_valid (o : Option (List Char)) (ip : List Char)
    (h : candidateXff o = some ip) : validateIP ip = true := by
  unfold candidateXff at h
  rcases o with _ | fwd
  · exact absurd h (by simp)
  · dsimp only at h
    by_cases he : fwd.isEmpty
    · rw [if_pos he] at h
      exact absurd h (by simp)
    · rw [if_neg he] at h
      split at h
      · cases h
        rename_i hcond
        exact (Bool.and_eq_true_iff.mp hcond).2
      · exact absurd h (by simp)

/-- A `cf-connecting-ip` / `x-real-ip` candidate is always validated. -/
theorem candidateHeader_valid (o : Option (List Char)) (ip : List Char)
    (h : candidateHeader o = some ip) : validateIP ip = true := by
  unfold candidateHeader at h
  rcases o with _ | v
  · exact absurd h (by simp)
  · dsimp only at h
    split at h
    · cases h
      rename_i hcond
      exact (Bool.and_eq_true_iff.mp hcond).2
    · exact absurd h (by simp)

/-- C2 (amended): `getClientIP` consults the headers in the source's priority
order — the first comma-separated trimmed entry of `x-forwarded-for` first,
then `cf-connecting-ip`, then `x-real-ip` — returning the normalized value of
the first syntactically valid candidate, falling back to `127.0.0.1` when no
candidate is valid; it never throws (always returns `.ok`). -/
theorem c2_header_priority (h : HeaderMap) :
    (∃ v, getClientIP h = .ok v)
    ∧ (∀ ip, candidateXff h.xForwardedFor = some ip → getClientIP h = normalizeIP ip)
    ∧ (candidateXff h.xForwardedFor = none →
        ∀ ip, candidateHeader h.cfConnectingIP = some ip →
          getClientIP h = normalizeIP ip)
    ∧ (candidateXff h.xForwardedFor = none → candidateHeader h.cfConnectingIP = none →
        ∀ ip, candidateHeader h.xRealIP = some ip → getClientIP h = normalizeIP ip)
    ∧ (candidateXff h.xForwardedFor = none → candidateHeader h.cfConnectingIP = none →
        candidateHeader h.xRealIP = none → getClientIP h = .ok "127.0.0.1".toList) := by
  refine ⟨?_, ?_, ?_, ?_, ?_⟩
  · rcases hx : candidateXff h.xForwardedFor with _ | ipx
    · rcases hc : candidateHeader h.cfConnectingIP with _ | ipc
      · rcases hr : candidateHeader h.xRealIP with _ | ipr
        · exact ⟨_, by unfold getClientIP; rw [hx, hc, hr]⟩
        · obtain ⟨v, hv⟩ := normalizeIP_ok ipr (candidateHeader_valid _ _ hr)
          exact ⟨v, by unfold getClientIP; rw [hx, hc, hr]; exact hv⟩
      · obtain ⟨v, hv⟩ := normalizeIP_ok ipc (candidateHeader_valid _ _ hc)
        exact ⟨v, by unfold getClientIP; rw [hx, hc]; exact hv⟩
    · obtain ⟨v, hv⟩ := normalizeIP_ok ipx (candidateXff_valid _ _ hx)
      exact ⟨v, by unfold getClientIP; rw [hx]; exact hv⟩
  · intro ip hip
    unfold getClientIP
    rw [hip]
  · intro h1 ip hip
    unfold getClientIP
    rw [h1, hip]
  · intro h1 h2 ip hip
    unfold getClientIP
    rw [h1, h2, hip]
  · intro h1 h2 h3
    unfold getClientIP
    rw [h1, h2, h3]


/-- C2 witness: with `x-forwarded-for: "10.0.0.1, 9.9.9.9"` present and valid,
the first trimmed forwarded entry is returned (normalized). -/
theorem c2_header_priority_witness :
    (∃ v, getClientIP ⟨some "10.0.0.1, 9.9.9.9".toList, none, some "5.6.7.8".toList⟩
        = .ok v)
    ∧ getClientIP ⟨some "10.0.0.1, 9.9.9.9".toList, none, some "5.6.7.8".toList⟩
        = normalizeIP "10.0.0.1".toList := by
  have h := c2_header_priority ⟨some "10.0.0.1, 9.9.9.9".toList, none,
    some "5.6.7.8".toList⟩
  exact ⟨h.1, h.2.1 "10.0.0.1".toList (by decide)⟩

/-- C2 counterexample: with both `x-forwarded-for: 1.2.3.4` and
`cf-connecting-ip: 5.6.7.8` present and valid, the source returns the
forwarded-for entry, while the claimed priority (`cf-connecting-ip` first)
would return `5.6.7.8` — the claimed order is wrong. -/
theorem c2_counterexample :
    getClientIP ⟨some "1.2.3.4".toList, none, some "5.6.7.8".toList⟩
      = .ok "1.2.3.4".toList
    ∧ getClientIPSpecOrder ⟨some "1.2.3.4".toList, none, some "5.6.7.8".toList⟩
      = .ok "5.6.7.8".toList
    ∧ getClientIP ⟨some "1.2.3.4".toList, none, some "5.6.7.8".toList⟩
      ≠ getClientIPSpecOrder ⟨some "1.2.3.4".toList, none, some "5.6.7.8".toList⟩ := by
  decide

/-! ## Claim C6: split/join and decimal-printing lemmas -/

theorem splitChar_ne_nil (c : Char) (l : List Char) : splitChar c l ≠ [] := by
  induction l with
  | nil => simp [splitChar]
  | cons a t ih =>
    unfold splitChar
    dsimp only
    by_cases ha : a = c
    · simp [ha]
    · rw [if_neg ha]
      rcases hr : splitChar c t with _ | ⟨h', t'⟩
      · exact absurd hr ih
      · simp

theorem splitChar_not_mem (c : Char) (l : List Char) :
    ∀ p ∈ splitChar c l, c ∉ p := by
  induction l with
  | nil =>
    intro p hp
    simp only [splitChar, List.mem_singleton] at hp
    simp [hp]
  | cons a t ih =>
    intro p hp
    unfold splitChar at hp
    dsimp only at hp
    by_cases ha : a = c
    · rw [if_pos ha] at hp
      rcases List.mem_cons.mp hp with h' | h'
      · simp [h']
      · exact ih p h'
    · rw [if_neg ha] at hp
      rcases hr : splitChar c t with _ | ⟨h', t'⟩
      · exact absurd hr (splitChar_ne_nil c t)
      · rw [hr] at hp
        rcases List.mem_cons.mp hp with h'' | h''
        · subst h''
          intro hmem
          rcases List.mem_cons.mp hmem with h3 | h3
          · exact ha h3.symm
          · exact ih h' (hr ▸ List.mem_cons_self _ _) h3
        · exact ih p (hr ▸ List.mem_cons_of_mem _ h'')

theorem splitChar_no_sep (c : Char) (l : List Char) (h : ∀ x ∈ l, x ≠ c) :
    splitChar c l = [l] := by
  induction l with
  | nil => rfl
  | cons a t ih =>
    unfold splitChar
    dsimp only
    rw [if_neg (h a (List.mem_cons_self _ _))]
    rw [ih (fun x hx => h x (List.mem_cons_of_mem _ hx))]

theorem splitChar_cons (c a : Char) (t : List Char) :
    splitChar c (a :: t)
      = if a = c then [] :: splitChar c t
        else
          match splitChar c t with
          | h :: t' => (a :: h) :: t'
          | [] => [[a]] := rfl

theorem splitChar_append_cons (c : Char) (p l : List Char) (h : ∀ x ∈ p, x ≠ c) :
    splitChar c (p ++ c :: l) = p :: splitChar c l := by
  induction p with
  | nil =>
    rw [List.nil_append, splitChar_cons, if_pos rfl]
  | cons a q ih =>
    have ha : a ≠ c := h a (List.mem_cons_self _ _)
    have hq := ih (fun x hx => h x (List.mem_cons_of_mem _ hx))
    show splitChar c (a :: (q ++ c :: l)) = (a :: q) :: splitChar c l
    rw [splitChar_cons, if_neg ha, hq]

theorem splitChar_joinChar (c : Char) (ps : List (List Char)) (hne : ps ≠ [])
    (h : ∀ p ∈ ps, ∀ x ∈ p, x ≠ c) : splitChar c (joinChar c ps) = ps := by
  induction ps with
  | nil => exact absurd rfl hne
  | cons p ps ih =>
    cases ps with
    | nil =>
      show splitChar c (joinChar c [p]) = [p]
      unfold joinChar
      exact splitChar_no_sep c p (h p (List.mem_cons_self _ _))
    | cons q rest =>
      show splitChar c (p ++ c :: joinChar c (q :: rest)) = p :: q :: rest
      rw [splitChar_append_cons c p _ (h p (List.mem_cons_self _ _))]
      rw [ih (by simp) (fun r hr => h r (List.mem_cons_of_mem _ hr))]

theorem joinChar_splitChar (c : Char) (l : List Char) :
    joinChar c (splitChar c l) = l := by
  induction l with
  | nil => rfl
  | cons a t ih =>
    unfold splitChar
    dsimp only
    by_cases ha : a = c
    · rw [if_pos ha]
      rcases hr : splitChar c t with _ | ⟨h', t'⟩
      · exact absurd hr (splitChar_ne_nil c t)
      · rw [hr] at ih
        have h2 : joinChar c ([] :: h' :: t') = c :: joinChar c (h' :: t') := rfl
        rw [h2, ih, ha]
    · rw [if_neg ha]
      rcases hr : splitChar c t with _ | ⟨h', t'⟩
      · exact absurd hr (splitChar_ne_nil c t)
      · rw [hr] at ih
        cases t' with
        | nil =>
          have h1 : joinChar c [h'] = t := ih
          have h2 : joinChar c [h'] = h' := rfl
          show joinChar c [a :: h'] = a :: t
          have h3 : joinChar c [a :: h'] = a :: h' := rfl
          rw [h3, ← h1, h2]
        | cons q rest =>
          show joinChar c ((a :: h') :: q :: rest) = a :: t
          have h2 : joinChar c ((a :: h') :: q :: rest)
              = a :: joinChar c (h' :: q :: rest) := rfl
          rw [h2, ih]

theorem mem_joinChar (c : Char) (ps : List (List Char)) (x : Char)
    (h : x ∈ joinChar c ps) : x = c ∨ ∃ p ∈ ps, x ∈ p := by
  induction ps with
  | nil => exact absurd h (by simp [joinChar])
  | cons p ps ih =>
    cases ps with
    | nil =>
      right
      exact ⟨p, List.mem_cons_self _ _, h⟩
    | cons q rest =>
      have h2 : joinChar c (p :: q :: rest) = p ++ c :: joinChar c (q :: rest) := rfl
      rw [h2] at h
      rcases List.mem_append.mp h with h' | h'
      · exact Or.inr ⟨p, List.mem_cons_self _ _, h'⟩
      · rcases List.mem_cons.mp h' with h'' | h''
        · exact Or.inl h''
        · rcases ih h'' with h3 | ⟨r, hr, hx⟩
          · exact Or.inl h3
          · exact Or.inr ⟨r, List.mem_cons_of_mem _ hr, hx⟩

theorem digitChar_isDigit (d : Nat) (h : d < 10) : (Nat.digitChar d).isDigit = true := by
  interval_cases d <;> decide

theorem digitChar_val (d : Nat) (h : d < 10) : (Nat.digitChar d).toNat - 48 = d := by
  interval_cases d <;> decide

theorem digitsToNat_append_singleton (l : List Char) (ch : Char) :
    digitsToNat (l ++ [ch]) = 10 * digitsToNat l + (ch.toNat - 48) := by
  unfold digitsToNat
  rw [List.foldl_append]
  dsimp only [List.foldl]
  omega

theorem natReprRevGo_all_digit (fuel : Nat) :
    ∀ n, ((natReprRevGo fuel n).all Char.isDigit) = true := by
  induction fuel with
  | zero =>
    intro n
    cases n <;> rfl
  | succ fuel ih =>
    intro n
    cases n with
    | zero => rfl
    | succ m =>
      show (((Nat.digitChar ((m + 1) % 10)) :: natReprRevGo fuel ((m + 1) / 10)).all
        Char.isDigit) = true
      rw [List.all_cons]
      rw [digitChar_isDigit _ (Nat.mod_lt _ (by norm_num)), ih]
      rfl

theorem natReprRevGo_val (fuel : Nat) :
    ∀ n, n ≤ fuel → digitsToNat ((natReprRevGo fuel n).reverse) = n := by
  induction fuel with
  | zero =>
    intro n hn
    interval_cases n
    rfl
  | succ fuel ih =>
    intro n hn
    cases n with
    | zero => rfl
    | succ m =>
      have hdiv : (m + 1) / 10 ≤ fuel := by
        have h1 : (m + 1) / 10 ≤ m := by
          rcases Nat.lt_or_ge (m + 1) 10 with h' | h'
          · rw [Nat.div_eq_of_lt h']
            omega
          · have := Nat.div_lt_self (show 0 < m + 1 by omega) (show 1 < 10 by norm_num)
            omega
        omega
      show digitsToNat (((Nat.digitChar ((m + 1) % 10)) ::
        natReprRevGo fuel ((m + 1) / 10)).reverse) = m + 1
      rw [List.reverse_cons, digitsToNat_append_singleton]
      rw [ih _ hdiv, digitChar_val _ (Nat.mod_lt _ (by norm_num))]
      omega

theorem natRepr_all_digit (n : Nat) : ((natRepr n).all Char.isDigit) = true := by
  unfold natRepr
  split
  · rfl
  · rw [List.all_reverse]
    exact natReprRevGo_all_digit n n

theorem natRepr_val (n : Nat) : digitsToNat (natRepr n) = n := by
  unfold natRepr
  split
  · simp_all [digitsToNat]
  · exact natReprRevGo_val n n (le_refl n)

theorem natRepr_ne_nil (n : Nat) : natRepr n ≠ [] := by
  unfold natRepr
  split
  · simp
  · intro h
    have h2 : digitsToNat ((natReprRevGo n n).reverse) = n :=
      natReprRevGo_val n n (le_refl n)
    unfold natReprRev at h
    rw [h] at h2
    simp [digitsToNat] at h2
    omega

theorem natReprRevGo_length (k : Nat) :
    ∀ fuel n, n ≤ fuel → n < 10 ^ k → (natReprRevGo fuel n).length ≤ k := by
  induction k with
  | zero =>
    intro fuel n hn hk
    simp only [pow_zero, Nat.lt_one_iff] at hk
    subst hk
    cases fuel <;> simp [natReprRevGo]
  | succ k ih =>
    intro fuel n hn hk
    cases fuel with
    | zero =>
      cases n <;> simp [natReprRevGo]
    | succ fuel =>
      cases n with
      | zero => simp [natReprRevGo]
      | succ m =>
        have hdiv : (m + 1) / 10 ≤ fuel := by
          have h1 : (m + 1) / 10 ≤ m := by
            rcases Nat.lt_or_ge (m + 1) 10 with h' | h'
            · rw [Nat.div_eq_of_lt h']
              omega
            · have := Nat.div_lt_self (show 0 < m + 1 by omega) (show 1 < 10 by norm_num)
              omega
          omega
        have hklt : (m + 1) / 10 < 10 ^ k := by
          rw [Nat.div_lt_iff_lt_mul (by norm_num : (0 : Nat) < 10)]
          calc m + 1 < 10 ^ (k + 1) := hk
            _ = 10 ^ k * 10 := by ring
        show ((Nat.digitChar ((m + 1) % 10)) ::
          natReprRevGo fuel ((m + 1) / 10)).length ≤ k + 1
        rw [List.length_cons]
        have := ih fuel ((m + 1) / 10) hdiv hklt
        omega

theorem natRepr_length_le_three (n : Nat) (h : n ≤ 255) : (natRepr n).length ≤ 3 := by
  unfold natRepr
  split
  · simp
  · rw [List.length_reverse]
    exact natReprRevGo_length 3 n n (le_refl n) (by omega)

theorem matchOctet_iff (p : List Char) :
    matchOctet p = true ↔
      p ≠ [] ∧ (∀ x ∈ p, x.isDigit = true) ∧ p.length ≤ 3 ∧ digitsToNat p ≤ 255 := by
  unfold matchOctet
  simp [List.all_eq_true, List.isEmpty_iff]
  tauto

theorem parseIntToStr_octet (p : List Char) (h : matchOctet p = true) :
    parseIntToStr p = natRepr (digitsToNat p) := by
  obtain ⟨hne, hdig, _, _⟩ := (matchOctet_iff p).mp h
  unfold parseIntToStr
  rw [List.takeWhile_eq_self_iff.mpr hdig]
  rw [if_neg (by simpa [List.isEmpty_iff] using hne)]

theorem matchOctet_natRepr (v : Nat) (hv : v ≤ 255) : matchOctet (natRepr v) = true := by
  refine (matchOctet_iff _).mpr ⟨natRepr_ne_nil v, ?_, natRepr_length_le_three v hv, ?_⟩
  · exact List.all_eq_true.mp (natRepr_all_digit v)
  · rw [natRepr_val]
    exact hv

theorem parseIntToStr_idem (p : List Char) (h : matchOctet p = true) :
    parseIntToStr (parseIntToStr p) = parseIntToStr p := by
  obtain ⟨_, _, _, hval⟩ := (matchOctet_iff p).mp h
  rw [parseIntToStr_octet p h]
  rw [parseIntToStr_octet _ (matchOctet_natRepr _ hval)]
  rw [natRepr_val]

theorem ipv4Test_iff (l : List Char) :
    ipv4Test l = true ↔
      (splitChar '.' l).length = 4 ∧ ∀ p ∈ splitChar '.' l, matchOctet p = true := by
  unfold ipv4Test
  simp [List.all_eq_true]

/-- Octet strings are pure digit strings, so they contain neither `.` nor `:`. -/
theorem octet_no_char (p : List Char) (h : matchOctet p = true) (c : Char)
    (hc : c.isDigit = false) : ∀ x ∈ p, x ≠ c := by
  obtain ⟨_, hdig, _, _⟩ := (matchOctet_iff p).mp h
  intro x hx heq
  rw [heq] at hx
  have := hdig c hx
  rw [hc] at this
  exact Bool.noConfusion this

/-- The `normalizeIP` on a valid IPv4 string: the canonical reprint, which is
again a valid IPv4 string splitting back into the canonical octets. -/
theorem normalizeIP_ipv4 (l : List Char) (h : ipv4Test l = true) :
    normalizeIP l = .ok (joinChar '.' ((splitChar '.' l).map parseIntToStr))
    ∧ ipv4Test (joinChar '.' ((splitChar '.' l).map parseIntToStr)) = true
    ∧ splitChar '.' (joinChar '.' ((splitChar '.' l).map parseIntToStr))
        = (splitChar '.' l).map parseIntToStr := by
  obtain ⟨hlen, hoct⟩ := (ipv4Test_iff l).mp h
  have hq_no_dot : ∀ q ∈ (splitChar '.' l).map parseIntToStr, ∀ x ∈ q, x ≠ '.' := by
    intro q hq
    obtain ⟨p, hp, hpq⟩ := List.mem_map.mp hq
    rw [← hpq, parseIntToStr_octet p (hoct p hp)]
    exact octet_no_char _ (matchOctet_natRepr _
      ((matchOctet_iff p).mp (hoct p hp)).2.2.2) '.' (by decide)
  have hq_ne_nil : (splitChar '.' l).map parseIntToStr ≠ [] := by
    intro hnil
    have := congrArg List.length hnil
    simp [hlen] at this
  have hsplit_back : splitChar '.' (joinChar '.' ((splitChar '.' l).map parseIntToStr))
      = (splitChar '.' l).map parseIntToStr :=
    splitChar_joinChar '.' _ hq_ne_nil hq_no_dot
  have hoct_q : ∀ q ∈ (splitChar '.' l).map parseIntToStr, matchOctet q = true := by
    intro q hq
    obtain ⟨p, hp, hpq⟩ := List.mem_map.mp hq
    rw [← hpq, parseIntToStr_octet p (hoct p hp)]
    exact matchOctet_natRepr _ ((matchOctet_iff p).mp (hoct p hp)).2.2.2
  have hipv4_t : ipv4Test (joinChar '.' ((splitChar '.' l).map parseIntToStr)) = true := by
    refine (ipv4Test_iff _).mpr ⟨?_, ?_⟩
    · rw [hsplit_back]
      simp [hlen]
    · rw [hsplit_back]
      exact hoct_q
  have hval : validateIP l = true := by
    unfold validateIP
    rw [h]
    rfl
  have hnl : ¬(l = "localhost".toList ∨ l = "::1".toList) := by
    rintro (h1 | h1) <;> (subst h1; exact absurd h (by decide))
  have hcolon : ¬(':' ∈ l) := by
    intro hmem
    have hl : l = joinChar '.' (splitChar '.' l) := (joinChar_splitChar '.' l).symm
    rw [hl] at hmem
    rcases mem_joinChar '.' _ ':' hmem with h' | ⟨p, hp, hx⟩
    · exact absurd h' (by decide)
    · exact octet_no_char p (hoct p hp) ':' (by decide) ':' hx rfl
  have hv6 : isIPv6 l = false := by
    unfold isIPv6
    simpa using hcolon
  refine ⟨?_, hipv4_t, hsplit_back⟩
  unfold normalizeIP
  rw [hval]
  rw [if_neg (by simp)]
  rw [if_neg hnl]
  rw [hv6]
  rfl

/-- An input accepted by the IPv6 regex contains a colon. -/
theorem ipv6Test_has_colon (l : List Char) (h : ipv6Test l = true) : ':' ∈ l := by
  unfold ipv6Test at h
  rcases Bool.or_eq_true_iff.mp h with h' | h'
  · rcases Bool.or_eq_true_iff.mp h' with h'' | h''
    · by_contra hmem
      have : splitChar ':' l = [l] :=
        splitChar_no_sep ':' l (fun x hx heq => hmem (heq ▸ hx))
      rw [Bool.and_eq_true_iff] at h''
      rw [this] at h''
      simp at h''
    · have : l = "::1".toList := by simpa using h''
      subst this
      decide
  · have : l = "::".toList := by simpa using h'
    subst this
    decide

/-- C6 (amended): `normalizeIP` is idempotent on every valid input that
contains no colon — all IPv4 addresses and `localhost` — and in particular
`normalizeIP("192.168.001.001") = "192.168.1.1"`.  (On valid full-form IPv6
inputs idempotence fails: compression can produce `::`-forms the validator
rejects or, for `0:0:0:0:0:0:0:1`, the string `::1`, which renormalizes to
`127.0.0.1` — see the counterexample.) -/
theorem c6_normalize_idempotent (s : List Char) (hval : validateIP s = true)
    (hcolon : s.contains ':' = false) :
    normalizeTwice s = normalizeIP s
    ∧ normalizeIP "192.168.001.001".toList = .ok "192.168.1.1".toList := by
  refine ⟨?_, by decide⟩
  have hnotmem : ¬(':' ∈ s) := by
    intro hm
    have h2 : s.contains ':' = true := by simpa using hm
    rw [hcolon] at h2
    exact Bool.noConfusion h2
  unfold validateIP at hval
  rcases Bool.or_eq_true_iff.mp hval with h' | h'
  · rcases Bool.or_eq_true_iff.mp h' with h4 | h6
    · obtain ⟨hlen, hoct⟩ := (ipv4Test_iff s).mp h4
      obtain ⟨h1, h2, h3⟩ := normalizeIP_ipv4 s h4
      obtain ⟨h1', _, _⟩ := normalizeIP_ipv4 _ h2
      have hbind : normalizeTwice s
          = normalizeIP (joinChar '.' ((splitChar '.' s).map parseIntToStr)) := by
        unfold normalizeTwice
        rw [h1]
        rfl
      rw [hbind, h1', h3, h1]
      have hmapmap : ((splitChar '.' s).map parseIntToStr).map parseIntToStr
          = (splitChar '.' s).map parseIntToStr := by
        conv_rhs => rw [← List.map_id ((splitChar '.' s).map parseIntToStr)]
        apply List.map_congr_left
        intro q hq
        obtain ⟨p, hp, hpq⟩ := List.mem_map.mp hq
        rw [← hpq]
        exact parseIntToStr_idem p (hoct p hp)
      rw [hmapmap]
    · exact absurd (ipv6Test_has_colon s h6) hnotmem
  · have hs : s = "localhost".toList := by simpa using h'
    subst hs
    decide

/-- C6 witness: the claim's own example input. -/
theorem c6_normalize_idempotent_witness :
    validateIP "192.168.001.001".toList = true
    ∧ ("192.168.001.001".toList.contains ':') = false
    ∧ normalizeTwice "192.168.001.001".toList = normalizeIP "192.168.001.001".toList
    ∧ normalizeIP "192.168.001.001".toList = .ok "192.168.1.1".toList := by
  have h := c6_normalize_idempotent "192.168.001.001".toList (by decide) (by decide)
  exact ⟨by decide, by decide, h.1, h.2⟩

/-- C6 counterexample: `0:0:0:0:0:0:0:1` is accepted by `validateIP`, but
`normalizeIP` maps it to `::1`, which a second `normalizeIP` maps to
`127.0.0.1` — idempotence fails on this valid IPv6 input. -/
theorem c6_counterexample :
    validateIP "0:0:0:0:0:0:0:1".toList = true
    ∧ normalizeIP "0:0:0:0:0:0:0:1".toList = .ok "::1".toList
    ∧ normalizeTwice "0:0:0:0:0:0:0:1".toList = .ok "127.0.0.1".toList
    ∧ normalizeTwice "0:0:0:0:0:0:0:1".toList ≠ normalizeIP "0:0:0:0:0:0:0:1".toList := by
  decide
